import Mathlib

/-!
Verification of the conflux configuration engine.

This file gives a shallow embedding of the multi-format configuration
parsing, detection and conversion engine of the repository
(pkg/config parser, source file with DetectFormat, ParseConfig,
looksLikeEnv, parseEnv, serializeEnv, ...) together with the
versioned-document service (internal/service/config.go), and proves or
refutes the specification claims about them.

Conventions of the embedding:
  - Go strings are Lean Strings; all character-level work is done on the
    underlying List Char.
  - Go code that can fault (slice out of range) is embedded with an
    explicit result type GoResult carrying a panicked constructor, so
    that a fault is distinguishable from a returned error.
  - The external YAML and TOML libraries are collaborators outside the
    repository; they appear as parameters (the LibParsers structure).
    The JSON library (encoding/json) is modelled concretely because
    several claims evaluate it on concrete inputs.
  - The storage collaborator (ConfigRepository) is an interface in the
    source with no implementation in the repository; an in-memory
    instance is modelled from the specification contract.
-/

/-- ConfigFormat, the enumeration of the four supported formats
(models.ConfigFormat, whose four constants are yaml, json, toml, env). -/
inductive ConfigFormat where
  | yaml
  | json
  | toml
  | env
deriving DecidableEq, Repr

/-- The generic JSON-like value model shared by all codecs
(Go map entries of type interface, i.e. dynamically typed values).
Numbers keep their raw textual token, which is all the claims need. -/
inductive JValue where
  | null
  | bool (b : Bool)
  | num (raw : String)
  | str (s : String)
  | arr (items : List JValue)
  | obj (fields : List (String × JValue))

/-- The result of parsing: an association list modelling Go's
map from string keys to dynamically typed values. -/
abbrev Jmap := List (String × JValue)

/-- Outcome of running a piece of Go code: a normal value, a returned
error (Go error values, modelled by their message strings), or a
runtime panic. -/
inductive GoResult (α : Type) where
  | ok (a : α)
  | err (e : String)
  | panicked (msg : String)
deriving DecidableEq, Repr

/-- Lift an error-or-value result into a GoResult. -/
def GoResult.ofExcept : Except String α → GoResult α
  | .ok a => .ok a
  | .error e => .err e

/-! ## Character and string utilities (models of the strings package) -/

/-- The ASCII white-space characters recognised by Go strings.TrimSpace
(unicode.IsSpace restricted to ASCII, which covers every input in the
claims). -/
def isGoSpace (c : Char) : Bool :=
  c = ' ' || c = '\t' || c = '\n' || c = Char.ofNat 11 || c = Char.ofNat 12 || c = '\r'

/-- Model of strings.TrimSpace on the character list. -/
def trimCh (l : List Char) : List Char :=
  ((l.dropWhile isGoSpace).reverse.dropWhile isGoSpace).reverse

/-- Model of strings.TrimSpace. -/
def trimSpace (s : String) : String := ⟨trimCh s.data⟩

/-- Model of strings.Split(s, "\n") : splitting on the newline
character; an empty input yields one empty chunk, as in Go. -/
def splitOnNl : List Char → List (List Char)
  | [] => [[]]
  | c :: cs =>
    match splitOnNl cs with
    | [] => [[c]]
    | l :: ls => if c = '\n' then [] :: l :: ls else (c :: l) :: ls

/-- Model of strings.Join(lines, "\n") restricted to the character
lists involved. -/
def joinNl : List (List Char) → List Char
  | [] => []
  | [l] => l
  | l :: ls => l ++ '\n' :: joinNl ls

/-- Model of strings.SplitN(line, "=", 2): the text before the first
equals sign and the text after it, or none when the line has no equals
sign (in which case Go returns a one-element slice). -/
def splitFirstEq : List Char → Option (List Char × List Char)
  | [] => none
  | c :: cs =>
    if c = '=' then some ([], cs)
    else (splitFirstEq cs).map (fun p => (c :: p.1, p.2))

/-- The single-quote character, written by code point to keep source
text plain. -/
def squote : Char := Char.ofNat 39

/-- The double-quote character. -/
def dquote : Char := '"'

/-! ## ENV codec (custom, fully concrete: parseEnv / serializeEnv / looksLikeEnv) -/

/-- Go map assignment data[key] = value on the association-list model:
replace the value of an existing key, otherwise append the new entry. -/
def envInsert (k : String) (v : JValue) (m : Jmap) : Jmap :=
  if m.any (fun kv => kv.1 == k) then
    m.map (fun kv => if kv.1 == k then (k, v) else kv)
  else
    m ++ [(k, v)]

/-- One step of parseEnv: whether the trimmed value is recognised as
quote-wrapped by the source's condition (HasPrefix and HasSuffix with
the same quote character). -/
def envQuoteCond (v : List Char) : Bool :=
  (v.head? = some dquote && v.getLast? = some dquote) ||
  (v.head? = some squote && v.getLast? = some squote)

/-- The loop body of parseEnv over the split lines, carrying the
accumulated map. Faithful to the source: blank and comment lines are
skipped after trimming; a line without an equals sign aborts with the
invalid-line error; the value slice value[1 : len(value)-1] is taken
whenever the quote condition holds, which panics when the value is a
single quote character (slice bounds [1:0]). -/
def parseEnvLines : List (List Char) → Jmap → GoResult Jmap
  | [], acc => .ok acc
  | line :: rest, acc =>
    let l := trimCh line
    if l = [] || l.head? = some '#' then parseEnvLines rest acc
    else
      match splitFirstEq l with
      | none => .err ("invalid env line: " ++ String.mk l)
      | some (k, v) =>
        let key := trimCh k
        let value := trimCh v
        if envQuoteCond value then
          if 2 ≤ value.length then
            parseEnvLines rest (envInsert ⟨key⟩ (.str ⟨(value.drop 1).dropLast⟩) acc)
          else .panicked "runtime error: slice bounds out of range [1:0]"
        else
          parseEnvLines rest (envInsert ⟨key⟩ (.str ⟨value⟩) acc)

/-- parseEnv from the source: split on newlines and process each line. -/
def parseEnv (content : String) : GoResult Jmap :=
  parseEnvLines (splitOnNl content.data) []

/-- The loop of looksLikeEnv, carrying the count of qualifying lines. -/
def looksLikeEnvLines : List (List Char) → Nat → Bool
  | [], n => decide (0 < n)
  | line :: rest, n =>
    let l := trimCh line
    if l = [] || l.head? = some '#' then looksLikeEnvLines rest n
    else if l.contains '=' then looksLikeEnvLines rest (n + 1)
    else false

/-- looksLikeEnv from the source: at least one qualifying line and
every qualifying line contains an equals sign. -/
def looksLikeEnv (content : String) : Bool :=
  looksLikeEnvLines (splitOnNl content.data) 0

/-- The characters that make serializeEnv take its quoting branch
(strings.ContainsAny(valueStr, " \t\n\"'\\")). -/
def isEnvSpecial (c : Char) : Bool :=
  c = ' ' || c = '\t' || c = '\n' || c = dquote || c = squote || c = '\\'

/-- Model of the escaping done by the %q verb of fmt (strconv.Quote)
for the characters that can occur in the claims. -/
def goQuoteEsc (c : Char) : List Char :=
  if c = dquote then ['\\', dquote]
  else if c = '\\' then ['\\', '\\']
  else if c = '\n' then ['\\', 'n']
  else if c = '\t' then ['\\', 't']
  else if c = '\r' then ['\\', 'r']
  else [c]

/-- Model of fmt.Sprintf with the %q verb: wrap in double quotes and
escape the interior. -/
def goQuote (l : List Char) : List Char :=
  dquote :: l.foldr (fun c acc => goQuoteEsc c ++ acc) [dquote]

/-- Model of strings.ReplaceAll(valueStr, quote, backslash-quote) used
by serializeEnv before %q. -/
def replaceAllDq (l : List Char) : List Char :=
  l.foldr (fun c acc => (if c = dquote then ['\\', dquote] else [c]) ++ acc) []

/-! ## JSON codec model

The source delegates to encoding/json. The claims evaluate the JSON
codec on concrete inputs, so the standard JSON grammar is modelled
concretely here (value parser with explicit fuel, plus a marshaller).
The model covers the standard grammar for the ASCII inputs the claims
use; surrogate-pair decoding of escapes and the HTML escaping of the
marshaller are not reproduced, and the marshaller emits object fields
in list order where Go sorts map keys (no claim serializes a composite
value). -/

/-- Opening curly bracket, written by code point. -/
def lbrace : Char := Char.ofNat 123

/-- Closing curly bracket, written by code point. -/
def rbrace : Char := Char.ofNat 125

/-- JSON insignificant white space. -/
def jIsWs (c : Char) : Bool :=
  c = ' ' || c = '\t' || c = '\n' || c = '\r'

/-- Skip JSON white space. -/
def jSkipWs (l : List Char) : List Char := l.dropWhile jIsWs

/-- Escaping of one character inside a marshalled JSON string. -/
def jsonEsc (c : Char) : List Char :=
  if c = dquote then ['\\', dquote]
  else if c = '\\' then ['\\', '\\']
  else if c = '\n' then ['\\', 'n']
  else if c = '\t' then ['\\', 't']
  else if c = '\r' then ['\\', 'r']
  else [c]

mutual

/-- Model of json.Marshal on the generic value model (compact form). -/
def jsonMarshal : JValue → List Char
  | .null => "null".data
  | .bool true => "true".data
  | .bool false => "false".data
  | .num raw => raw.data
  | .str s => dquote :: s.data.foldr (fun c acc => jsonEsc c ++ acc) [dquote]
  | .arr xs => '[' :: jsonMarshalArr xs ++ [']']
  | .obj fs => lbrace :: jsonMarshalObj fs ++ [rbrace]

/-- Comma-joined marshalling of array items. -/
def jsonMarshalArr : List JValue → List Char
  | [] => []
  | [x] => jsonMarshal x
  | x :: xs => jsonMarshal x ++ ',' :: jsonMarshalArr xs

/-- Comma-joined marshalling of object fields. -/
def jsonMarshalObj : List (String × JValue) → List Char
  | [] => []
  | [kv] => (dquote :: kv.1.data.foldr (fun c acc => jsonEsc c ++ acc) [dquote]) ++ ':' :: jsonMarshal kv.2
  | kv :: fs => (dquote :: kv.1.data.foldr (fun c acc => jsonEsc c ++ acc) [dquote]) ++ ':' :: jsonMarshal kv.2 ++ ',' :: jsonMarshalObj fs

end

/-- Hexadecimal digit value for unicode escapes. -/
def jHexVal (c : Char) : Option Nat :=
  if c.isDigit then some (c.toNat - 48)
  else if 'a' ≤ c && c ≤ 'f' then some (c.toNat - 87)
  else if 'A' ≤ c && c ≤ 'F' then some (c.toNat - 55)
  else none

/-- Decode the escape character of a backslash escape (other than the
unicode form). -/
def jEscChar (e : Char) : Option Char :=
  if e = dquote then some dquote
  else if e = '\\' then some '\\'
  else if e = '/' then some '/'
  else if e = 'b' then some (Char.ofNat 8)
  else if e = 'f' then some (Char.ofNat 12)
  else if e = 'n' then some '\n'
  else if e = 'r' then some '\r'
  else if e = 't' then some '\t'
  else none

/-- Parse the body of a JSON string after its opening quote, returning
the decoded characters and the rest of the input. -/
def jStrChars : List Char → Option (List Char × List Char)
  | [] => none
  | c :: cs =>
    if c = dquote then some ([], cs)
    else if c = '\\' then
      match cs with
      | [] => none
      | e :: cs2 =>
        if e = 'u' then
          match cs2 with
          | h1 :: h2 :: h3 :: h4 :: cs3 =>
            match jHexVal h1, jHexVal h2, jHexVal h3, jHexVal h4 with
            | some a, some b, some c4, some d =>
              (jStrChars cs3).map (fun p => (Char.ofNat (((a * 16 + b) * 16 + c4) * 16 + d) :: p.1, p.2))
            | _, _, _, _ => none
          | _ => none
        else
          match jEscChar e with
          | some ch => (jStrChars cs2).map (fun p => (ch :: p.1, p.2))
          | none => none
    else if c.toNat < 32 then none
    else (jStrChars cs).map (fun p => (c :: p.1, p.2))
termination_by l => l.length
decreasing_by all_goals simp_wf <;> omega

/-- Parse a JSON number token, returning its raw text and the rest. -/
def jParseNum (l : List Char) : Option (List Char × List Char) :=
  let sign : List Char := if l.head? = some '-' then ['-'] else []
  let l1 := if l.head? = some '-' then l.tail else l
  let intd := l1.takeWhile Char.isDigit
  let r1 := l1.dropWhile Char.isDigit
  if intd = [] then none
  else if 2 ≤ intd.length && intd.head? = some '0' then none
  else
    let step2 : Option (List Char × List Char) :=
      match r1 with
      | '.' :: r =>
        let ds := r.takeWhile Char.isDigit
        if ds = [] then none else some ('.' :: ds, r.dropWhile Char.isDigit)
      | _ => some ([], r1)
    match step2 with
    | none => none
    | some (fracd, r2) =>
      let step3 : Option (List Char × List Char) :=
        match r2 with
        | c :: r =>
          if c = 'e' || c = 'E' then
            let es : List Char := match r with
              | s :: _ => if s = '+' || s = '-' then [s] else []
              | [] => []
            let r3 := match r with
              | s :: rr => if s = '+' || s = '-' then rr else r
              | [] => r
            let ds := r3.takeWhile Char.isDigit
            if ds = [] then none else some (c :: es ++ ds, r3.dropWhile Char.isDigit)
          else some ([], r2)
        | [] => some ([], r2)
      match step3 with
      | none => none
      | some (expd, r4) => some (sign ++ intd ++ fracd ++ expd, r4)

mutual

/-- Parse one JSON value (fuelled recursive descent). -/
def jParseV : Nat → List Char → Option (JValue × List Char)
  | 0, _ => none
  | Nat.succ f, l =>
    match jSkipWs l with
    | [] => none
    | c :: rest =>
      if c = lbrace then jParseObjStart f rest
      else if c = '[' then jParseArrStart f rest
      else if c = dquote then (jStrChars rest).map (fun p => (JValue.str ⟨p.1⟩, p.2))
      else if c = 't' then
        match rest with
        | 'r' :: 'u' :: 'e' :: r => some (.bool true, r)
        | _ => none
      else if c = 'f' then
        match rest with
        | 'a' :: 'l' :: 's' :: 'e' :: r => some (.bool false, r)
        | _ => none
      else if c = 'n' then
        match rest with
        | 'u' :: 'l' :: 'l' :: r => some (.null, r)
        | _ => none
      else (jParseNum (c :: rest)).map (fun p => (JValue.num ⟨p.1⟩, p.2))

/-- Parse the inside of an array after the opening bracket. -/
def jParseArrStart : Nat → List Char → Option (JValue × List Char)
  | 0, _ => none
  | Nat.succ f, l =>
    match jSkipWs l with
    | ']' :: rest => some (.arr [], rest)
    | _ => (jParseArrItems f l).map (fun p => (JValue.arr p.1, p.2))

/-- Parse one or more comma-separated array items up to the closing
bracket. -/
def jParseArrItems : Nat → List Char → Option (List JValue × List Char)
  | 0, _ => none
  | Nat.succ f, l =>
    match jParseV f l with
    | none => none
    | some (v, r) =>
      match jSkipWs r with
      | ',' :: r2 => (jParseArrItems f r2).map (fun p => (v :: p.1, p.2))
      | ']' :: r2 => some ([v], r2)
      | _ => none

/-- Parse the inside of an object after the opening brace. -/
def jParseObjStart : Nat → List Char → Option (JValue × List Char)
  | 0, _ => none
  | Nat.succ f, l =>
    match jSkipWs l with
    | [] => none
    | c :: rest =>
      if c = rbrace then some (.obj [], rest)
      else (jParseObjItems f l).map (fun p => (JValue.obj p.1, p.2))

/-- Parse one or more comma-separated key-value members up to the
closing brace. -/
def jParseObjItems : Nat → List Char → Option (List (String × JValue) × List Char)
  | 0, _ => none
  | Nat.succ f, l =>
    match jSkipWs l with
    | [] => none
    | c :: rest =>
      if c = dquote then
        match jStrChars rest with
        | none => none
        | some (k, r) =>
          match jSkipWs r with
          | ':' :: r2 =>
            match jParseV f r2 with
            | none => none
            | some (v, r3) =>
              match jSkipWs r3 with
              | [] => none
              | c2 :: r4 =>
                if c2 = ',' then (jParseObjItems f r4).map (fun p => ((⟨k⟩, v) :: p.1, p.2))
                else if c2 = rbrace then some ([(⟨k⟩, v)], r4)
                else none
          | _ => none
      else none

end

/-- Model of json.Unmarshal into a value of dynamic type: parse one
value and require only white space after it. The fuel is generous
enough for any input (each recursion step consumes input). -/
def jsonParse (s : String) : Option JValue :=
  match jParseV (2 * s.data.length + 2) s.data with
  | some (v, rest) => if jSkipWs rest = [] then some v else none
  | none => none

/-- isValidJSON from the source: json.Unmarshal into a dynamically
typed value succeeds. -/
def isValidJSON (content : String) : Bool :=
  (jsonParse content).isSome

/-- parseJSON from the source: json.Unmarshal into a map from string
keys. The library succeeds exactly on a top-level object (later
duplicate keys overwrite earlier ones) or on the literal null (which
leaves the map nil and reports no error); any other top-level value is
an unmarshalling type error. -/
def parseJSON (content : String) : Except String Jmap :=
  match jsonParse content with
  | some (.obj fs) => .ok (fs.foldl (fun m kv => envInsert kv.1 kv.2 m) [])
  | some .null => .ok []
  | some _ => .error "json: cannot unmarshal value into map"
  | none => .error "invalid character in JSON input"

/-! ## External YAML and TOML libraries (parameters) -/

/-- The behavior of the external YAML and TOML libraries, which the
source only delegates to. A parser is the unmarshal-into-dynamic-value
function (none meaning a parse error); a marshaller serializes a map.
Theorems about the dispatch structure quantify over this structure. -/
structure LibParsers where
  yamlU : String → Option JValue
  tomlU : String → Option JValue
  yamlM : Jmap → Except String String
  tomlM : Jmap → Except String String

/-- isValidYAML from the source: yaml.Unmarshal into a dynamically
typed value succeeds. -/
def isValidYAML (L : LibParsers) (content : String) : Bool :=
  (L.yamlU content).isSome

/-- isValidTOML from the source. -/
def isValidTOML (L : LibParsers) (content : String) : Bool :=
  (L.tomlU content).isSome

/-- parseYAML from the source: yaml.Unmarshal into a map from string
keys, which requires the document to be a mapping (or empty/null). -/
def parseYAML (L : LibParsers) (content : String) : Except String Jmap :=
  match L.yamlU content with
  | some (.obj fs) => .ok (fs.foldl (fun m kv => envInsert kv.1 kv.2 m) [])
  | some .null => .ok []
  | some _ => .error "yaml: unmarshal error"
  | none => .error "yaml: parse error"

/-- parseTOML from the source, analogously. -/
def parseTOML (L : LibParsers) (content : String) : Except String Jmap :=
  match L.tomlU content with
  | some (.obj fs) => .ok (fs.foldl (fun m kv => envInsert kv.1 kv.2 m) [])
  | some .null => .ok []
  | some _ => .error "toml: unmarshal error"
  | none => .error "toml: parse error"

/-- The value produced by serializeEnv for one entry, before quoting:
string values verbatim, booleans via the %t verb, numbers via %v, and
composite or null values as embedded JSON text (json.Marshal). -/
def envValueStr : JValue → List Char
  | .str s => s.data
  | .bool b => if b then "true".data else "false".data
  | .num raw => raw.data
  | v => jsonMarshal v

/-- One KEY=VALUE line of serializeEnv, quoting the value when it
contains a character of the quoting set. -/
def serializeEnvLine (kv : String × JValue) : List Char :=
  let valueStr := envValueStr kv.2
  let valueStr := if valueStr.any isEnvSpecial then goQuote (replaceAllDq valueStr) else valueStr
  kv.1.data ++ '=' :: valueStr

/-- serializeEnv from the source: one line per entry joined by
newlines. The Go original iterates the map in unspecified order; the
association-list model iterates in list order. The error type is kept
for interface parity (the only failing step in the source,
json.Marshal, is total on this value model). -/
def serializeEnv (m : Jmap) : Except String String :=
  .ok ⟨joinNl (m.map serializeEnvLine)⟩

/-! ## Parser facade (DetectFormat / ParseConfig / SerializeConfig / ConvertFormat) -/

mutual

/-- Model of json.MarshalIndent with two-space indentation, used by
serializeJSON. -/
def jsonMarshalInd : Nat → JValue → List Char
  | _, .null => "null".data
  | _, .bool true => "true".data
  | _, .bool false => "false".data
  | _, .num raw => raw.data
  | _, .str s => dquote :: s.data.foldr (fun c acc => jsonEsc c ++ acc) [dquote]
  | _, .arr [] => ['[', ']']
  | d, .arr (x :: xs) => '[' :: '\n' :: jsonMarshalIndArr d (x :: xs) ++ '\n' :: List.replicate (2 * d) ' ' ++ [']']
  | _, .obj [] => [lbrace, rbrace]
  | d, .obj (kv :: fs) => lbrace :: '\n' :: jsonMarshalIndObj d (kv :: fs) ++ '\n' :: List.replicate (2 * d) ' ' ++ [rbrace]

/-- Indented, comma-and-newline joined array items. -/
def jsonMarshalIndArr : Nat → List JValue → List Char
  | _, [] => []
  | d, [x] => List.replicate (2 * (d + 1)) ' ' ++ jsonMarshalInd (d + 1) x
  | d, x :: xs => List.replicate (2 * (d + 1)) ' ' ++ jsonMarshalInd (d + 1) x ++ ',' :: '\n' :: jsonMarshalIndArr d xs

/-- Indented, comma-and-newline joined object fields. -/
def jsonMarshalIndObj : Nat → List (String × JValue) → List Char
  | _, [] => []
  | d, [kv] => List.replicate (2 * (d + 1)) ' ' ++ (dquote :: kv.1.data.foldr (fun c acc => jsonEsc c ++ acc) [dquote]) ++ ':' :: ' ' :: jsonMarshalInd (d + 1) kv.2
  | d, kv :: fs => List.replicate (2 * (d + 1)) ' ' ++ (dquote :: kv.1.data.foldr (fun c acc => jsonEsc c ++ acc) [dquote]) ++ ':' :: ' ' :: jsonMarshalInd (d + 1) kv.2 ++ ',' :: '\n' :: jsonMarshalIndObj d fs

end

/-- serializeJSON from the source: json.MarshalIndent with two-space
indentation (the Go library additionally sorts map keys; the
association-list model keeps list order, and no claim serializes a
composite value). -/
def serializeJSON (m : Jmap) : Except String String :=
  .ok ⟨jsonMarshalInd 0 (.obj m)⟩

/-- DetectFormat from the source: trim, reject empty content, then try
JSON, YAML, TOML in that order, then the ENV heuristic, else fail. -/
def DetectFormat (L : LibParsers) (content : String) : Except String ConfigFormat :=
  let c := trimSpace content
  if c = "" then .error "empty content"
  else if isValidJSON c then .ok .json
  else if isValidYAML L c then .ok .yaml
  else if isValidTOML L c then .ok .toml
  else if looksLikeEnv c then .ok .env
  else .error "unable to detect configuration format"

/-- ParseConfig from the source: dispatch on the format. The Go format
type is a string with four recognised constants; the enumeration model
makes the default unsupported-format branch unrepresentable. -/
def ParseConfig (L : LibParsers) (content : String) (format : ConfigFormat) : GoResult Jmap :=
  match format with
  | .json => .ofExcept (parseJSON content)
  | .yaml => .ofExcept (parseYAML L content)
  | .toml => .ofExcept (parseTOML L content)
  | .env => parseEnv content

/-- SerializeConfig from the source: dispatch on the format. -/
def SerializeConfig (L : LibParsers) (data : Jmap) (format : ConfigFormat) : Except String String :=
  match format with
  | .json => serializeJSON data
  | .yaml => L.yamlM data
  | .toml => L.tomlM data
  | .env => serializeEnv data

/-- ConvertFormat from the source: parse in the source format (wrapping
a parse error with context), then serialize in the target format. -/
def ConvertFormat (L : LibParsers) (content : String) (fromFormat toFormat : ConfigFormat) : GoResult String :=
  match ParseConfig L content fromFormat with
  | .panicked m => .panicked m
  | .err e => .err ("failed to parse source format: " ++ e)
  | .ok data => .ofExcept (SerializeConfig L data toFormat)

/-- ValidateConfig from the source: re-parse as a syntax check; the
schema-aware step is an unimplemented hook in the source. -/
def ValidateConfig (L : LibParsers) (content : String) (format : ConfigFormat) (schema : Option String) : GoResult Unit :=
  match ParseConfig L content format with
  | .panicked m => .panicked m
  | .err e => .err ("invalid configuration: " ++ e)
  | .ok _ =>
    match schema with
    | none => .ok ()
    | some _ => .ok ()

/-! ## Specification mirrors for the detector and the ENV parser -/

/-- The ENV heuristic as the specification words it: at least one
non-blank, non-comment line exists and every such line contains an
equals sign. -/
def envHeuristicSpec (content : String) : Bool :=
  let qual := ((splitOnNl content.data).map trimCh).filter (fun l => !(l = [] || l.head? = some '#'))
  decide (qual ≠ []) && qual.all (fun l => l.contains '=')

/-- The detection algorithm as the specification words it, used to
state the refinement claim about DetectFormat. -/
def DetectFormatSpec (L : LibParsers) (content : String) : Except String ConfigFormat :=
  let c := trimSpace content
  if c = "" then .error "empty content"
  else if isValidJSON c then .ok .json
  else if isValidYAML L c then .ok .yaml
  else if isValidTOML L c then .ok .toml
  else if envHeuristicSpec c then .ok .env
  else .error "unable to detect configuration format"

/-- Quote stripping as the specification words it: a value wrapped in
matching single or double quotes (an opening and a closing quote, so
at least two characters) loses exactly one quote layer. -/
def stripOneQuoteLayer (v : List Char) : List Char :=
  if 2 ≤ v.length && envQuoteCond v then (v.drop 1).dropLast else v

/-- The ENV parser as the specification words it (total: no panic). -/
def parseEnvSpecLines : List (List Char) → Jmap → Except String Jmap
  | [], acc => .ok acc
  | line :: rest, acc =>
    let l := trimCh line
    if l = [] || l.head? = some '#' then parseEnvSpecLines rest acc
    else
      match splitFirstEq l with
      | none => .error ("invalid env line: " ++ String.mk l)
      | some (k, v) =>
        parseEnvSpecLines rest (envInsert ⟨trimCh k⟩ (.str ⟨stripOneQuoteLayer (trimCh v)⟩) acc)

/-- Entry point of the specification ENV parser. -/
def parseEnvSpec (content : String) : Except String Jmap :=
  parseEnvSpecLines (splitOnNl content.data) []

/-- The one place where the source parser deviates from the
specification description of a line: a line whose trimmed value
satisfies the quote condition with fewer than two characters (a lone
quote character) makes the source panic. -/
def envLineFaults (line : List Char) : Bool :=
  let l := trimCh line
  if l = [] || l.head? = some '#' then false
  else
    match splitFirstEq l with
    | none => false
    | some (_, v) => envQuoteCond (trimCh v) && decide ((trimCh v).length < 2)

/-- A concrete library instance for closed evaluations. The theorems
using it never reach the external YAML/TOML collaborators (JSON or ENV
always decides first), so those are instantiated as rejecting
parsers. -/
def rejectingLibs : LibParsers where
  yamlU := fun _ => none
  tomlU := fun _ => none
  yamlM := fun _ => .error "yaml marshal unavailable"
  tomlM := fun _ => .error "toml marshal unavailable"

/-! ## Data model of the document service

Mirrors internal/models (ConfigTemplate, UserConfig, ConfigVersion).
Wall-clock timestamp fields and fields the service never reads
(description, sharing flag, declared template variables, relationship
fields) are elided from the embedding. -/

/-- ConfigTemplate from internal/models, restricted to the fields the
document service reads. -/
structure ConfigTemplate where
  id : Nat
  name : String
  format : ConfigFormat
  defaultContent : String
  schema : Option String := none
deriving DecidableEq, Repr

/-- UserConfig (a document) from internal/models. -/
structure UserConfig where
  id : Nat
  userID : Nat
  templateID : Option Nat
  name : String
  format : ConfigFormat
  content : String
deriving DecidableEq, Repr

/-- ConfigVersion from internal/models: an append-only snapshot row. -/
structure ConfigVersion where
  id : Nat
  configID : Nat
  version : Nat
  content : String
  changeNote : String
  createdBy : Nat
deriving DecidableEq, Repr

/-- The ConfigRepository interface of the service source (the subset
of methods the embedded operations call), as explicit state
transformers over an abstract storage state. -/
structure ConfigRepository (σ : Type) where
  getTemplate : σ → Nat → σ × Except String ConfigTemplate
  createUserConfig : σ → UserConfig → σ × Except String UserConfig
  getUserConfig : σ → Nat → σ × Except String UserConfig
  updateUserConfig : σ → Nat → UserConfig → σ × Except String Unit
  deleteUserConfig : σ → Nat → σ × Except String Unit
  createVersion : σ → ConfigVersion → σ × Except String Unit
  getConfigVersion : σ → Nat → σ × Except String ConfigVersion
  getConfigVersions : σ → Nat → Nat → Nat → σ × Except String (List ConfigVersion)

/-! ## The document service (internal/service/config.go) -/

namespace ConfigService

variable {σ : Type}

/-- GetUserConfig from the source: load, then reject when the caller
does not own the document. -/
def GetUserConfig (R : ConfigRepository σ) (st : σ) (id userID : Nat) : σ × Except String UserConfig :=
  match R.getUserConfig st id with
  | (st1, .error e) => (st1, .error e)
  | (st1, .ok config) =>
    if config.userID ≠ userID then (st1, .error "unauthorized access to configuration")
    else (st1, .ok config)

/-- validateConfigContent from the source: parse and return only the
error. -/
def validateConfigContent (L : LibParsers) (content : String) (format : ConfigFormat) : GoResult Unit :=
  match ParseConfig L content format with
  | .panicked m => .panicked m
  | .err e => .err e
  | .ok _ => .ok ()

/-- createConfigVersion from the source: read the single most recent
version (page 1, limit 1), add one to its number (1 when none), and
insert the new row. There is no retry around the insert. -/
def createConfigVersion (R : ConfigRepository σ) (st : σ) (config : UserConfig) (changeNote : String) : σ × Except String Unit :=
  match R.getConfigVersions st config.id 1 1 with
  | (st1, .error e) => (st1, .error e)
  | (st1, .ok versions) =>
    let versionNumber := match versions with
      | [] => 1
      | v :: _ => v.version + 1
    R.createVersion st1 { id := 0, configID := config.id, version := versionNumber, content := config.content, changeNote := changeNote, createdBy := config.userID }

/-- CreateUserConfig from the source: load the template, copy its
content and format into a new document owned by the caller, persist
it, then append the initial version. -/
def CreateUserConfig (R : ConfigRepository σ) (st : σ) (userID templateID : Nat) (name : String) : σ × GoResult UserConfig :=
  match R.getTemplate st templateID with
  | (st1, .error e) => (st1, .err ("template not found: " ++ e))
  | (st1, .ok template) =>
    let userConfig : UserConfig :=
      { id := 0, userID := userID, templateID := some templateID, name := name,
        format := template.format, content := template.defaultContent }
    match R.createUserConfig st1 userConfig with
    | (st2, .error e) => (st2, .err e)
    | (st2, .ok stored) =>
      match createConfigVersion R st2 stored "Initial version" with
      | (st3, .error e) => (st3, .err ("failed to create initial version: " ++ e))
      | (st3, .ok _) => (st3, .ok stored)

/-- UpdateUserConfig from the source: ownership check, validation of
the new content under the effective format, persist, then append one
version. -/
def UpdateUserConfig (R : ConfigRepository σ) (L : LibParsers) (st : σ) (id userID : Nat) (content changeNote : String) (format : Option ConfigFormat) : σ × GoResult UserConfig :=
  match GetUserConfig R st id userID with
  | (st1, .error e) => (st1, .err e)
  | (st1, .ok config) =>
    let actualFormat := format.getD config.format
    match validateConfigContent L content actualFormat with
    | .panicked m => (st1, .panicked m)
    | .err e => (st1, .err ("configuration validation failed: " ++ e))
    | .ok _ =>
      let config2 := { config with content := content, format := format.getD config.format }
      match R.updateUserConfig st1 id config2 with
      | (st2, .error e) => (st2, .err e)
      | (st2, .ok _) =>
        match createConfigVersion R st2 config2 changeNote with
        | (st3, .error e) => (st3, .err ("failed to create version: " ++ e))
        | (st3, .ok _) => (st3, .ok config2)

/-- DeleteUserConfig from the source: ownership check, then delete. -/
def DeleteUserConfig (R : ConfigRepository σ) (st : σ) (id userID : Nat) : σ × Except String Unit :=
  match GetUserConfig R st id userID with
  | (st1, .error e) => (st1, .error e)
  | (st1, .ok config) => R.deleteUserConfig st1 config.id

/-- GetConfigVersions from the source: ownership check through the
parent document, then list. -/
def GetConfigVersions (R : ConfigRepository σ) (st : σ) (configID userID page limit : Nat) : σ × Except String (List ConfigVersion) :=
  match GetUserConfig R st configID userID with
  | (st1, .error e) => (st1, .error e)
  | (st1, .ok _) => R.getConfigVersions st1 configID page limit

/-- GetConfigVersion from the source: the version row is read first,
and only then is ownership of its parent document checked. -/
def GetConfigVersion (R : ConfigRepository σ) (st : σ) (versionID userID : Nat) : σ × Except String ConfigVersion :=
  match R.getConfigVersion st versionID with
  | (st1, .error e) => (st1, .error e)
  | (st1, .ok version) =>
    match GetUserConfig R st1 version.configID userID with
    | (st2, .error e) => (st2, .error e)
    | (st2, .ok _) => (st2, .ok version)

/-- RestoreConfigVersion from the source: ownership check, fetch the
version, verify it belongs to the document, then delegate to
UpdateUserConfig with the historical content, a synthesized note, and
no format override. -/
def RestoreConfigVersion (R : ConfigRepository σ) (L : LibParsers) (st : σ) (configID versionID userID : Nat) : σ × GoResult UserConfig :=
  match GetUserConfig R st configID userID with
  | (st1, .error e) => (st1, .err e)
  | (st1, .ok _) =>
    match GetConfigVersion R st1 versionID userID with
    | (st2, .error e) => (st2, .err e)
    | (st2, .ok version) =>
      if version.configID ≠ configID then (st2, .err "version does not belong to this configuration")
      else UpdateUserConfig R L st2 configID userID version.content ("Restored to version " ++ toString version.version) none

/-- ExportConfig from the source: ownership check; same format is
returned verbatim, otherwise convert. -/
def ExportConfig (R : ConfigRepository σ) (L : LibParsers) (st : σ) (configID userID : Nat) (format : ConfigFormat) : σ × GoResult String :=
  match GetUserConfig R st configID userID with
  | (st1, .error e) => (st1, .err e)
  | (st1, .ok config) =>
    if config.format = format then (st1, .ok config.content)
    else (st1, ConvertFormat L config.content config.format format)

end ConfigService

/-! ## In-memory storage collaborator

Modelled from the spec: the repository contract of the specification
(section 6) — template/document/version stores, uniqueness of a
document name per owner and of (config_id, version), most-recent-first
version listing, delete cascading to versions. No implementation of
this interface exists in the repository source; this instance realises
the contract so the service can be run and reasoned about. Every call
is also recorded in an event log so that statements about operation
order (which repository reads happen before which checks) can be made.
-/

/-- One repository call, as recorded in the event log. -/
inductive RepoEvent where
  | getTemplate (id : Nat)
  | createUserConfig (id : Nat)
  | getUserConfig (id : Nat)
  | updateUserConfig (id : Nat)
  | deleteUserConfig (id : Nat)
  | createVersion (configID version : Nat)
  | getConfigVersion (versionID : Nat)
  | getConfigVersions (configID : Nat)
deriving DecidableEq, Repr

/-- The storage state: three tables, two identity counters, and the
call log. -/
structure RepoState where
  templates : List ConfigTemplate
  configs : List UserConfig
  versions : List ConfigVersion
  nextConfigID : Nat
  nextVersionID : Nat
  events : List RepoEvent
deriving DecidableEq, Repr

/-- Record one repository call in the log. -/
def RepoState.log (st : RepoState) (e : RepoEvent) : RepoState :=
  { st with events := st.events ++ [e] }

/-- Insert one version into a list sorted by descending version
number. -/
def insDescV (v : ConfigVersion) : List ConfigVersion → List ConfigVersion
  | [] => [v]
  | w :: ws => if w.version ≤ v.version then v :: w :: ws else w :: insDescV v ws

/-- Sort versions by descending version number (insertion sort),
realising the most-recent-first listing order of the contract. -/
def sortDescV (l : List ConfigVersion) : List ConfigVersion :=
  l.foldr insDescV []

/-- Modelled from the spec: the in-memory repository instance
realising the storage contract of section 6. -/
def memRepo : ConfigRepository RepoState where
  getTemplate := fun st id =>
    let st1 := st.log (.getTemplate id)
    match st1.templates.find? (fun t => t.id == id) with
    | some t => (st1, .ok t)
    | none => (st1, .error "template record not found")
  createUserConfig := fun st c =>
    let st1 := st.log (.createUserConfig st.nextConfigID)
    if st.configs.any (fun k => k.userID == c.userID && k.name == c.name) then
      (st1, .error "duplicate configuration name for user")
    else
      let stored := { c with id := st.nextConfigID }
      ({ st1 with configs := st1.configs ++ [stored], nextConfigID := st1.nextConfigID + 1 }, .ok stored)
  getUserConfig := fun st id =>
    let st1 := st.log (.getUserConfig id)
    match st1.configs.find? (fun k => k.id == id) with
    | some c => (st1, .ok c)
    | none => (st1, .error "configuration record not found")
  updateUserConfig := fun st id c =>
    let st1 := st.log (.updateUserConfig id)
    if st.configs.any (fun k => k.id == id) then
      ({ st1 with configs := st1.configs.map (fun k => if k.id == id then { c with id := id } else k) }, .ok ())
    else (st1, .error "configuration record not found")
  deleteUserConfig := fun st id =>
    let st1 := st.log (.deleteUserConfig id)
    if st.configs.any (fun k => k.id == id) then
      ({ st1 with configs := st1.configs.filter (fun k => k.id != id),
                  versions := st1.versions.filter (fun v => v.configID != id) }, .ok ())
    else (st1, .error "configuration record not found")
  createVersion := fun st v =>
    let st1 := st.log (.createVersion v.configID v.version)
    if st.versions.any (fun w => w.configID == v.configID && w.version == v.version) then
      (st1, .error "unique constraint violation on config version")
    else
      ({ st1 with versions := st1.versions ++ [{ v with id := st1.nextVersionID }],
                  nextVersionID := st1.nextVersionID + 1 }, .ok ())
  getConfigVersion := fun st id =>
    let st1 := st.log (.getConfigVersion id)
    match st1.versions.find? (fun v => v.id == id) with
    | some v => (st1, .ok v)
    | none => (st1, .error "version record not found")
  getConfigVersions := fun st configID page limit =>
    let st1 := st.log (.getConfigVersions configID)
    (st1, .ok (((sortDescV (st1.versions.filter (fun v => v.configID == configID))).drop ((page - 1) * limit)).take limit))

/-- Modelled from the spec: a storage collaborator standing for the
losing side of the concurrency race of section 5 — every version
insert reports a uniqueness violation. Its state counts the insert
attempts the service makes, so the presence or absence of a retry is
observable. -/
def countingRepo : ConfigRepository Nat where
  getTemplate := fun n _ => (n, .error "record not found")
  createUserConfig := fun n c => (n, .ok c)
  getUserConfig := fun n _ => (n, .error "record not found")
  updateUserConfig := fun n _ _ => (n, .ok ())
  deleteUserConfig := fun n _ => (n, .ok ())
  createVersion := fun n _ => (n + 1, .error "unique constraint violation on config version")
  getConfigVersion := fun n _ => (n, .error "record not found")
  getConfigVersions := fun n _ _ _ => (n, .ok [])

/-- The version numbers stored for one document, in storage order. -/
def versionNums (st : RepoState) (cid : Nat) : List Nat :=
  (st.versions.filter (fun v => v.configID == cid)).map (fun v => v.version)

/-- Well-formedness of the storage state, as the service maintains it:
identity counters dominate stored ids, every version row belongs to a
stored document, and the version numbers of every document are exactly
1, 2, ..., n in storage order. -/
structure RepoWF (st : RepoState) : Prop where
  configs_lt : ∀ c ∈ st.configs, c.id < st.nextConfigID
  versions_owned : ∀ v ∈ st.versions, ∃ c ∈ st.configs, v.configID = c.id
  version_nums : ∀ cid, ∃ n, versionNums st cid = List.range' 1 n

/-! ## Basic lemmas about the string utilities -/

lemma head?_dropWhile_not (p : Char → Bool) (l : List Char) (a : Char)
    (h : (l.dropWhile p).head? = some a) : p a = false := by
  induction l with
  | nil => simp [List.dropWhile] at h
  | cons c cs ih =>
    rw [List.dropWhile_cons] at h
    split at h
    · exact ih h
    · simp only [List.head?_cons, Option.some.injEq] at h
      subst h
      simp_all

lemma dropWhile_eq_self_of_head (p : Char → Bool) (l : List Char)
    (h : ∀ c, l.head? = some c → p c = false) : l.dropWhile p = l := by
  cases l with
  | nil => rfl
  | cons c cs => rw [List.dropWhile_cons]; simp [h c rfl]

lemma trimCh_append_junk (l : List Char) : ∃ t, l.dropWhile isGoSpace = trimCh l ++ t := by
  unfold trimCh
  refine ⟨(((l.dropWhile isGoSpace).reverse.takeWhile isGoSpace)).reverse, ?_⟩
  conv_lhs => rw [← List.reverse_reverse (l.dropWhile isGoSpace)]
  conv_lhs => rw [← List.takeWhile_append_dropWhile isGoSpace (l.dropWhile isGoSpace).reverse]
  rw [List.reverse_append]

lemma trimCh_head_not_space (l : List Char) (c : Char) (h : (trimCh l).head? = some c) :
    isGoSpace c = false := by
  obtain ⟨t, ht⟩ := trimCh_append_junk l
  have hd : (l.dropWhile isGoSpace).head? = some c := by
    rw [ht]
    cases htc : trimCh l with
    | nil => rw [htc] at h; simp at h
    | cons a as =>
      rw [htc] at h
      simp only [List.head?_cons, Option.some.injEq] at h
      subst h
      simp
  exact head?_dropWhile_not _ _ _ hd

lemma trimCh_getLast_not_space (l : List Char) (c : Char) (h : (trimCh l).getLast? = some c) :
    isGoSpace c = false := by
  unfold trimCh at h
  rw [List.getLast?_reverse] at h
  exact head?_dropWhile_not _ _ _ h

lemma trimCh_eq_self (l : List Char)
    (h1 : ∀ c, l.head? = some c → isGoSpace c = false)
    (h2 : ∀ c, l.getLast? = some c → isGoSpace c = false) : trimCh l = l := by
  unfold trimCh
  rw [dropWhile_eq_self_of_head _ _ h1]
  rw [dropWhile_eq_self_of_head _ _ (fun c hc => h2 c (by rwa [List.head?_reverse] at hc))]
  exact List.reverse_reverse l

lemma trimCh_idem (l : List Char) : trimCh (trimCh l) = trimCh l :=
  trimCh_eq_self _ (fun c h => trimCh_head_not_space l c h)
    (fun c h => trimCh_getLast_not_space l c h)

lemma mem_trimCh (l : List Char) (x : Char) (h : x ∈ trimCh l) : x ∈ l := by
  unfold trimCh at h
  rw [List.mem_reverse] at h
  have hs1 : List.Sublist ((l.dropWhile isGoSpace).reverse.dropWhile isGoSpace)
      ((l.dropWhile isGoSpace).reverse) := List.dropWhile_sublist isGoSpace
  have h2 := hs1.mem h
  rw [List.mem_reverse] at h2
  have hs2 : List.Sublist (l.dropWhile isGoSpace) l := List.dropWhile_sublist isGoSpace
  exact hs2.mem h2

lemma splitFirstEq_eq (l : List Char) (k v : List Char) (h : splitFirstEq l = some (k, v)) :
    l = k ++ '=' :: v ∧ '=' ∉ k := by
  induction l generalizing k v with
  | nil => simp [splitFirstEq] at h
  | cons c cs ih =>
    unfold splitFirstEq at h
    split at h
    · next hc =>
      simp only [Option.some.injEq, Prod.mk.injEq] at h
      obtain ⟨hk, hv⟩ := h
      subst hk; subst hv; subst hc
      simp
    · next hc =>
      rw [Option.map_eq_some'] at h
      obtain ⟨⟨k', v'⟩, hkv, heq⟩ := h
      simp only [Prod.mk.injEq] at heq
      obtain ⟨hk, hv⟩ := heq
      obtain ⟨hcs, hmem⟩ := ih k' v' hkv
      subst hk; subst hv; subst hcs
      constructor
      · simp
      · simp only [List.mem_cons, not_or]
        exact ⟨fun he => hc he.symm, hmem⟩

lemma splitFirstEq_append (k v : List Char) (h : '=' ∉ k) :
    splitFirstEq (k ++ '=' :: v) = some (k, v) := by
  induction k with
  | nil => simp [splitFirstEq]
  | cons c cs ih =>
    simp only [List.mem_cons, not_or] at h
    obtain ⟨hc, hcs⟩ := h
    rw [List.cons_append]
    unfold splitFirstEq
    rw [if_neg (Ne.symm hc), ih hcs]
    rfl

lemma splitOnNl_ne_nil (cs : List Char) : splitOnNl cs ≠ [] := by
  cases cs with
  | nil => simp [splitOnNl]
  | cons c cs =>
    unfold splitOnNl
    cases hs : splitOnNl cs with
    | nil => simp
    | cons l ls =>
      by_cases hc : c = '\n' <;> simp [hc]

lemma splitOnNl_cons_nl (cs : List Char) : splitOnNl ('\n' :: cs) = [] :: splitOnNl cs := by
  conv_lhs => rw [splitOnNl]
  cases hs : splitOnNl cs with
  | nil => exact absurd hs (splitOnNl_ne_nil cs)
  | cons l0 ls0 => simp

lemma splitOnNl_cons_not_nl (c : Char) (cs : List Char) (hc : c ≠ '\n')
    (l0 : List Char) (ls0 : List (List Char)) (hs : splitOnNl cs = l0 :: ls0) :
    splitOnNl (c :: cs) = (c :: l0) :: ls0 := by
  conv_lhs => rw [splitOnNl]
  rw [hs]
  simp [hc]

lemma splitOnNl_mem_no_nl (cs : List Char) (l : List Char) (h : l ∈ splitOnNl cs) :
    '\n' ∉ l := by
  induction cs generalizing l with
  | nil =>
    simp only [splitOnNl, List.mem_singleton] at h
    subst h; simp
  | cons c cs ih =>
    obtain ⟨l0, ls0, hs⟩ := List.exists_cons_of_ne_nil (splitOnNl_ne_nil cs)
    by_cases hc : c = '\n'
    · subst hc
      rw [splitOnNl_cons_nl] at h
      rcases List.mem_cons.mp h with h1 | h2
      · subst h1; simp
      · exact ih l h2
    · rw [splitOnNl_cons_not_nl c cs hc l0 ls0 hs] at h
      rcases List.mem_cons.mp h with h1 | h2
      · subst h1
        simp only [List.mem_cons, not_or]
        exact ⟨fun he => hc he.symm, ih l0 (by rw [hs]; exact List.mem_cons_self l0 ls0)⟩
      · exact ih l (by rw [hs]; exact List.mem_cons_of_mem l0 h2)

lemma splitOnNl_no_nl (l : List Char) (h : '\n' ∉ l) : splitOnNl l = [l] := by
  induction l with
  | nil => rfl
  | cons c cs ih =>
    simp only [List.mem_cons, not_or] at h
    obtain ⟨hc, hcs⟩ := h
    exact splitOnNl_cons_not_nl c cs (fun he => hc he.symm) cs [] (ih hcs)

lemma splitOnNl_append (l cs : List Char) (h : '\n' ∉ l) :
    splitOnNl (l ++ '\n' :: cs) = l :: splitOnNl cs := by
  induction l with
  | nil => exact splitOnNl_cons_nl cs
  | cons c l' ih =>
    simp only [List.mem_cons, not_or] at h
    obtain ⟨hc, hl'⟩ := h
    rw [List.cons_append]
    exact splitOnNl_cons_not_nl c (l' ++ '\n' :: cs) (fun he => hc he.symm)
      l' (splitOnNl cs) (ih hl')

lemma splitOnNl_joinNl (ls : List (List Char)) (hne : ls ≠ []) (h : ∀ l ∈ ls, '\n' ∉ l) :
    splitOnNl (joinNl ls) = ls := by
  induction ls with
  | nil => exact absurd rfl hne
  | cons l ls' ih =>
    cases ls' with
    | nil => simpa [joinNl] using splitOnNl_no_nl l (h l (by simp))
    | cons l2 ls'' =>
      show splitOnNl (l ++ '\n' :: joinNl (l2 :: ls'')) = _
      rw [splitOnNl_append _ _ (h l (by simp))]
      rw [ih (by simp) (fun x hx => h x (by simp [hx]))]

lemma envInsert_fresh (k : String) (v : JValue) (m : Jmap) (h : ∀ kv ∈ m, kv.1 ≠ k) :
    envInsert k v m = m ++ [(k, v)] := by
  unfold envInsert
  rw [if_neg]
  intro hc
  rw [List.any_eq_true] at hc
  obtain ⟨kv, hm, hb⟩ := hc
  exact h kv hm (by simpa using hb)

/-! ## The detector agrees with its specification -/

lemma looksLikeEnvLines_eq (ls : List (List Char)) (n : Nat) :
    looksLikeEnvLines ls n =
      (((ls.map trimCh).filter (fun l => !(l = [] || l.head? = some '#'))).all
          (fun l => l.contains '=')
        && decide (0 < n + ((ls.map trimCh).filter
            (fun l => !(l = [] || l.head? = some '#'))).length)) := by
  induction ls generalizing n with
  | nil => simp [looksLikeEnvLines]
  | cons line rest ih =>
    simp only [looksLikeEnvLines, List.map_cons, List.filter_cons]
    cases hcond : (trimCh line = [] || (trimCh line).head? = some '#') with
    | true => simp [hcond, ih]
    | false =>
      cases hcont : (trimCh line).contains '=' with
      | true =>
        simp [hcond, hcont, ih, Nat.add_assoc, Nat.add_comm, Nat.add_left_comm]
        intro _
        simpa using hcont
      | false =>
        simp [hcond, hcont]
        intro hmem
        exact absurd hmem (by simpa using hcont)

lemma looksLikeEnv_eq_spec (s : String) : looksLikeEnv s = envHeuristicSpec s := by
  unfold looksLikeEnv envHeuristicSpec
  rw [looksLikeEnvLines_eq]
  simp only [Nat.zero_add]
  rw [Bool.and_comm]
  congr 1
  rw [decide_eq_decide]
  exact List.length_pos.trans (by simp)

/-- C2: for every input text, DetectFormat first trims surrounding
whitespace and returns the error "empty content" if the result is
empty; otherwise it returns, in strict order with first success
winning: JSON if the text parses as JSON, else YAML if it parses as
YAML, else TOML if it parses as TOML, else ENV if at least one
non-blank, non-comment line exists and every such line contains an
equals sign, else the error "unable to detect configuration format" —
stated as equality with the detection procedure transcribed from the
specification. -/
theorem DetectFormat_matches_spec (L : LibParsers) (content : String) :
    DetectFormat L content = DetectFormatSpec L content := by
  unfold DetectFormat DetectFormatSpec
  simp only [looksLikeEnv_eq_spec]

/-! ## The ENV parser: faults and line semantics -/

/-- C3: the claim that no input can make a codec fault is wrong on the
code: the ENV quote-stripping step takes the slice value[1:len-1]
whenever the value both starts and ends with the same quote character,
which for the one-character value consisting of a single double-quote
is the out-of-range slice [1:0] — a runtime panic, not a returned
error. -/
theorem parseConfig_env_faults_on_lone_quote :
    ParseConfig rejectingLibs "A=\"" ConfigFormat.env
      = GoResult.panicked "runtime error: slice bounds out of range [1:0]" := by rfl

lemma parseEnvLines_agrees_spec (ls : List (List Char)) (acc : Jmap)
    (h : ∀ line ∈ ls, envLineFaults line = false) :
    parseEnvLines ls acc = .ofExcept (parseEnvSpecLines ls acc) := by
  induction ls generalizing acc with
  | nil => rfl
  | cons line rest ih =>
    have hline := h line (List.mem_cons_self line rest)
    have hrest : ∀ l ∈ rest, envLineFaults l = false :=
      fun l hl => h l (List.mem_cons_of_mem line hl)
    unfold envLineFaults at hline
    simp only [parseEnvLines, parseEnvSpecLines]
    cases hcond : (trimCh line = [] || (trimCh line).head? = some '#') with
    | true => simp [hcond]; exact ih acc hrest
    | false =>
      simp only [hcond, Bool.false_eq_true, if_false, ite_false] at hline
      cases hsp : splitFirstEq (trimCh line) with
      | none => simp [hcond, hsp, GoResult.ofExcept]
      | some kv =>
        obtain ⟨k, v⟩ := kv
        rw [hsp] at hline
        simp only [Bool.false_eq_true, if_false, ite_false] at hline
        cases hq : envQuoteCond (trimCh v) with
        | false =>
          have hstrip : stripOneQuoteLayer (trimCh v) = trimCh v := by
            unfold stripOneQuoteLayer; simp [hq]
          simp [hcond, hsp, hq, hstrip]
          exact ih _ hrest
        | true =>
          rw [hq] at hline
          simp only [Bool.true_and, decide_eq_false_iff_not, Nat.not_lt] at hline
          have hstrip : stripOneQuoteLayer (trimCh v) = ((trimCh v).drop 1).dropLast := by
            unfold stripOneQuoteLayer
            simp [hq, hline]
          simp [hcond, hsp, hq, hstrip, hline]
          exact ih _ hrest

/-- C5: ENV parsing skips blank lines and comment lines, splits each
remaining line on the first equals sign only (values keep later equals
signs, as in the URL example), trims key and value, strips exactly one
layer of matching quotes, keeps all values as strings, and fails with
the invalid-line error on a line without an equals sign — except that
a line whose trimmed value is a lone quote character makes the parser
panic instead of following this description (the code bug exhibited in
the first conjunct); on every input free of such lines the parser
agrees with the described semantics, transcribed as parseEnvSpec. -/
theorem parseEnv_line_semantics :
    parseEnv "X=\"" = GoResult.panicked "runtime error: slice bounds out of range [1:0]" ∧
    (∀ t : String, (∀ line ∈ splitOnNl t.data, envLineFaults line = false) →
        parseEnv t = .ofExcept (parseEnvSpec t)) ∧
    parseEnv "URL=http://x.com?a=1" = .ok [("URL", JValue.str "http://x.com?a=1")] := by
  refine ⟨by rfl, ?_, by rfl⟩
  intro t h
  unfold parseEnv parseEnvSpec
  exact parseEnvLines_agrees_spec _ _ h

/-- Witness: a concrete two-line input on which the source parser and
the described semantics agree. -/
theorem parseEnv_line_semantics_witness :
    parseEnv "A=1\nB=2" = .ofExcept (parseEnvSpec "A=1\nB=2") :=
  parseEnv_line_semantics.2.1 "A=1\nB=2" (by decide)

/-! ## Detection success does not imply parse success -/

/-- C9 (counterexample): the literal null is not a mapping, yet the
JSON parse path accepts it — unmarshalling JSON null into a map
leaves the map nil and reports no error, so ParseConfig returns the
empty map. This refutes the clause that ParseConfig succeeds only on
content whose top level is a mapping from string keys. -/
theorem parseConfig_json_null_succeeds :
    ParseConfig rejectingLibs "null" ConfigFormat.json = GoResult.ok []
    ∧ jsonParse "null" = some JValue.null :=
  ⟨rfl, rfl⟩

/-- C9 (amended): parseJSON succeeds only when the top level
unmarshals as an object or as the literal null (which leaves the map
nil), while isValidJSON accepts any JSON value; hence on the
top-level array input, DetectFormat answers JSON but ParseConfig
under JSON fails — successful detection does not imply successful
parsing. -/
theorem detection_does_not_imply_parse :
    (∀ (s : String) (m : Jmap), parseJSON s = .ok m →
        (∃ fs, jsonParse s = some (JValue.obj fs)) ∨ jsonParse s = some JValue.null) ∧
    DetectFormat rejectingLibs "[1, 2]" = .ok ConfigFormat.json ∧
    ParseConfig rejectingLibs "[1, 2]" ConfigFormat.json
      = .err "json: cannot unmarshal value into map" := by
  refine ⟨?_, by rfl, by rfl⟩
  intro s m h
  unfold parseJSON at h
  cases hj : jsonParse s with
  | none => rw [hj] at h; exact absurd h (by simp)
  | some v =>
    rw [hj] at h
    cases v with
    | obj fs => exact Or.inl ⟨fs, rfl⟩
    | null => exact Or.inr rfl
    | bool b => simp at h
    | num r => simp at h
    | str s2 => simp at h
    | arr xs => simp at h

/-- Witness: the null input satisfies the hypothesis of the first
conjunct. -/
theorem detection_does_not_imply_parse_witness :
    (∃ fs, jsonParse "null" = some (JValue.obj fs)) ∨ jsonParse "null" = some JValue.null :=
  detection_does_not_imply_parse.1 "null" [] (by rfl)

/-! ## The ENV round trip -/

lemma mem_of_getLast?Ch (l : List Char) (a : Char) (h : l.getLast? = some a) : a ∈ l := by
  rw [← List.head?_reverse] at h
  have hm : a ∈ l.reverse := by
    cases hr : l.reverse with
    | nil => rw [hr] at h; cases h
    | cons x xs =>
      rw [hr] at h
      simp only [List.head?_cons, Option.some.injEq] at h
      subst h
      exact List.mem_cons_self _ _
  exact List.mem_reverse.mp hm

/-- Cleanliness of a parsed value for the restricted round-trip
statement: a string free of the serializer's quoting set and of white
space. -/
def envValCleanB : JValue → Bool
  | .str s => s.data.all (fun c => !(isEnvSpecial c || isGoSpace c))
  | _ => false

/-- The shape parseEnv gives every key it stores: trimmed, on one
line, before the first equals sign, not starting a comment. -/
def envKeyGood (k : String) : Prop :=
  trimCh k.data = k.data ∧ '\n' ∉ k.data ∧ '=' ∉ k.data ∧ k.data.head? ≠ some '#'

lemma parse_step_key_good (line k v : List Char)
    (hnl : '\n' ∉ line)
    (hcond : (trimCh line = [] || (trimCh line).head? = some '#') = false)
    (hsp : splitFirstEq (trimCh line) = some (k, v)) :
    envKeyGood ⟨trimCh k⟩ := by
  obtain ⟨hline, hknoeq⟩ := splitFirstEq_eq _ _ _ hsp
  simp only [Bool.or_eq_false_iff, decide_eq_false_iff_not] at hcond
  obtain ⟨hc1, hc2⟩ := hcond
  refine ⟨trimCh_idem k, ?_, ?_, ?_⟩
  · intro hmem
    have h1 : '\n' ∈ k := mem_trimCh _ _ hmem
    have h2 : '\n' ∈ trimCh line := by
      rw [hline]; exact List.mem_append_left _ h1
    exact hnl (mem_trimCh _ _ h2)
  · intro hmem
    exact hknoeq (mem_trimCh _ _ hmem)
  · intro hhd
    have hkne : trimCh k ≠ [] := by
      intro h0; rw [h0] at hhd; cases hhd
    have hk0 : k ≠ [] := fun h0 => hkne (by rw [h0]; rfl)
    obtain ⟨c0, k', hk⟩ := List.exists_cons_of_ne_nil hk0
    have hheadline : (trimCh line).head? = some c0 := by
      rw [hline, hk]; simp
    have hc0 : isGoSpace c0 = false := trimCh_head_not_space line c0 hheadline
    have hdw : k.dropWhile isGoSpace = k := by
      apply dropWhile_eq_self_of_head
      intro c hc
      rw [hk] at hc
      simp only [List.head?_cons, Option.some.injEq] at hc
      subst hc
      exact hc0
    obtain ⟨t, ht⟩ := trimCh_append_junk k
    rw [hdw] at ht
    obtain ⟨c1, k1, hk1⟩ := List.exists_cons_of_ne_nil hkne
    have hc1' : c1 = c0 := by
      rw [hk1] at ht
      rw [hk] at ht
      exact (List.cons.injEq _ _ _ _ ▸ ht).1.symm
    rw [hk1] at hhd
    simp only [List.head?_cons, Option.some.injEq] at hhd
    apply hc2
    rw [hheadline, ← hc1', hhd]

lemma envInsert_keys_map (k : String) (v : JValue) (m : Jmap) :
    (envInsert k v m).map Prod.fst =
      if m.any (fun kv => kv.1 == k) then m.map Prod.fst else m.map Prod.fst ++ [k] := by
  unfold envInsert
  split
  · next h =>
    rw [List.map_map]
    apply List.map_congr_left
    intro kv _
    by_cases hb : (kv.1 == k) = true
    · simp only [Function.comp_apply, hb, if_true, ite_true]
      exact (beq_iff_eq.mp hb).symm
    · simp only [Function.comp_apply, hb]
      simp [hb]
  · next h =>
    rw [List.map_append]
    rfl

lemma envInsert_keys_nodup (k : String) (v : JValue) (m : Jmap)
    (h : (m.map Prod.fst).Nodup) : ((envInsert k v m).map Prod.fst).Nodup := by
  rw [envInsert_keys_map]
  split
  · exact h
  · next hany =>
    rw [List.nodup_append]
    refine ⟨h, List.nodup_singleton k, ?_⟩
    intro x hx hk
    simp only [List.mem_singleton] at hk
    subst hk
    rw [List.mem_map] at hx
    obtain ⟨kv, hkv, hfst⟩ := hx
    apply hany
    rw [List.any_eq_true]
    exact ⟨kv, hkv, by simp [hfst]⟩

lemma envInsert_keys_pred (P : String → Prop) (k : String) (v : JValue) (acc : Jmap)
    (hacc : ∀ kv ∈ acc, P kv.1) (hk : P k) :
    ∀ kv ∈ envInsert k v acc, P kv.1 := by
  unfold envInsert
  split
  · intro kv hkv
    rw [List.mem_map] at hkv
    obtain ⟨kv0, h0, heq⟩ := hkv
    subst heq
    by_cases hb : (kv0.1 == k) = true
    · simp only [hb, if_true, ite_true]
      exact hk
    · simp only [hb]
      simp only [Bool.false_eq_true, if_false, ite_false]
      exact hacc kv0 h0
  · intro kv hkv
    rcases List.mem_append.mp hkv with h0 | h0
    · exact hacc kv h0
    · simp only [List.mem_singleton] at h0
      subst h0
      exact hk

lemma parseEnvLines_ok_keys (ls : List (List Char)) (acc m : Jmap)
    (hls : ∀ l ∈ ls, '\n' ∉ l)
    (hacc1 : ∀ kv ∈ acc, envKeyGood kv.1)
    (hacc2 : (acc.map Prod.fst).Nodup)
    (h : parseEnvLines ls acc = .ok m) :
    (∀ kv ∈ m, envKeyGood kv.1) ∧ (m.map Prod.fst).Nodup := by
  induction ls generalizing acc with
  | nil =>
    simp only [parseEnvLines, GoResult.ok.injEq] at h
    subst h
    exact ⟨hacc1, hacc2⟩
  | cons line rest ih =>
    have hnl := hls line (List.mem_cons_self line rest)
    have hrest : ∀ l ∈ rest, '\n' ∉ l := fun l hl => hls l (List.mem_cons_of_mem line hl)
    simp only [parseEnvLines] at h
    cases hcond : (trimCh line = [] || (trimCh line).head? = some '#') with
    | true =>
      rw [hcond] at h
      simp only [if_true, ite_true] at h
      exact ih acc hrest hacc1 hacc2 h
    | false =>
      rw [hcond] at h
      simp only [Bool.false_eq_true, if_false, ite_false] at h
      cases hsp : splitFirstEq (trimCh line) with
      | none => rw [hsp] at h; cases h
      | some kv =>
        obtain ⟨k, v⟩ := kv
        simp only [hsp] at h
        have hkey : envKeyGood ⟨trimCh k⟩ := parse_step_key_good line k v hnl hcond hsp
        cases hq : envQuoteCond (trimCh v) with
        | true =>
          by_cases hlen : 2 ≤ (trimCh v).length
          · simp only [hq, hlen, if_true, ite_true] at h
            exact ih _ hrest
              (envInsert_keys_pred _ _ _ _ hacc1 hkey)
              (envInsert_keys_nodup _ _ _ hacc2) h
          · simp [hq, hlen] at h
        | false =>
          simp only [hq, Bool.false_eq_true, if_false, ite_false] at h
          exact ih _ hrest
            (envInsert_keys_pred _ _ _ _ hacc1 hkey)
            (envInsert_keys_nodup _ _ _ hacc2) h

lemma envValClean_facts (x : JValue) (h : envValCleanB x = true) :
    JValue.str ⟨envValueStr x⟩ = x ∧
      ∀ c ∈ envValueStr x, isEnvSpecial c = false ∧ isGoSpace c = false := by
  cases x with
  | str s =>
    refine ⟨rfl, ?_⟩
    intro c hc
    simp only [envValCleanB, List.all_eq_true] at h
    have hx := h c hc
    constructor
    · cases hb : isEnvSpecial c
      · rfl
      · rw [hb] at hx; simp at hx
    · cases hg : isGoSpace c
      · rfl
      · rw [hg] at hx; simp at hx
  | null => simp [envValCleanB] at h
  | bool b => simp [envValCleanB] at h
  | num r => simp [envValCleanB] at h
  | arr xs => simp [envValCleanB] at h
  | obj fs => simp [envValCleanB] at h

lemma serializeEnvLine_of_clean (kv : String × JValue)
    (hv : envValCleanB kv.2 = true) :
    serializeEnvLine kv = kv.1.data ++ '=' :: envValueStr kv.2 := by
  obtain ⟨-, hchars⟩ := envValClean_facts kv.2 hv
  have hany : (envValueStr kv.2).any isEnvSpecial = false := by
    rw [List.any_eq_false]
    intro c hc
    simp [(hchars c hc).1]
  unfold serializeEnvLine
  simp [hany]

lemma parse_clean_lines (m : Jmap) (acc : Jmap)
    (hgood : ∀ kv ∈ m, envKeyGood kv.1 ∧ envValCleanB kv.2 = true)
    (hnd : (m.map Prod.fst).Nodup)
    (hfresh : ∀ kv ∈ m, ∀ kv2 ∈ acc, kv2.1 ≠ kv.1) :
    parseEnvLines (m.map (fun kv => kv.1.data ++ '=' :: envValueStr kv.2)) acc
      = .ok (acc ++ m) := by
  induction m generalizing acc with
  | nil => simp [parseEnvLines]
  | cons kv m' ih =>
    obtain ⟨⟨hti, hnn, hne, hh⟩, hvc⟩ := hgood kv (List.mem_cons_self kv m')
    obtain ⟨hveta, hvchars⟩ := envValClean_facts kv.2 hvc
    have hvnospace : ∀ c ∈ envValueStr kv.2, isGoSpace c = false :=
      fun c hc => (hvchars c hc).2
    have hvnospecial : ∀ c ∈ envValueStr kv.2, isEnvSpecial c = false :=
      fun c hc => (hvchars c hc).1
    have hline_trim : trimCh (kv.1.data ++ '=' :: envValueStr kv.2)
        = kv.1.data ++ '=' :: envValueStr kv.2 := by
      apply trimCh_eq_self
      · intro c hc
        cases hk : kv.1.data with
        | nil =>
          rw [hk] at hc
          simp only [List.nil_append, List.head?_cons, Option.some.injEq] at hc
          subst hc
          decide
        | cons a as =>
          rw [hk] at hc
          simp only [List.cons_append, List.head?_cons, Option.some.injEq] at hc
          have ha : (trimCh kv.1.data).head? = some a := by rw [hti, hk]; simp
          rw [← hc]
          exact trimCh_head_not_space _ _ ha
      · intro c hc
        rw [List.getLast?_append_of_ne_nil kv.1.data (by simp)] at hc
        cases hv0 : envValueStr kv.2 with
        | nil =>
          rw [hv0] at hc
          simp only [List.getLast?_singleton, Option.some.injEq] at hc
          subst hc
          decide
        | cons b bs =>
          rw [hv0] at hc
          rw [List.getLast?_cons_cons] at hc
          have hmem : c ∈ envValueStr kv.2 := by
            rw [hv0]
            exact mem_of_getLast?Ch _ _ hc
          exact hvnospace c hmem
    have hvtrim : trimCh (envValueStr kv.2) = envValueStr kv.2 := by
      apply trimCh_eq_self
      · intro c hc
        cases hv0 : envValueStr kv.2 with
        | nil => rw [hv0] at hc; cases hc
        | cons b bs =>
          rw [hv0] at hc
          simp only [List.head?_cons, Option.some.injEq] at hc
          rw [← hc]
          exact hvnospace b (by rw [hv0]; exact List.mem_cons_self _ _)
      · intro c hc
        exact hvnospace c (mem_of_getLast?Ch _ _ hc)
    have hcondF : ((kv.1.data ++ '=' :: envValueStr kv.2) = []
        || (kv.1.data ++ '=' :: envValueStr kv.2).head? = some '#') = false := by
      simp only [Bool.or_eq_false_iff, decide_eq_false_iff_not]
      constructor
      · simp
      · cases hk : kv.1.data with
        | nil => simp
        | cons a as =>
          simp only [List.cons_append, List.head?_cons]
          intro hcon
          apply hh
          rw [hk]
          simp only [List.head?_cons]
          exact hcon
    have hsplit : splitFirstEq (kv.1.data ++ '=' :: envValueStr kv.2)
        = some (kv.1.data, envValueStr kv.2) := splitFirstEq_append _ _ hne
    have hq : envQuoteCond (envValueStr kv.2) = false := by
      cases hv0 : envValueStr kv.2 with
      | nil => rfl
      | cons b bs =>
        have hbspec := hvnospecial b (by rw [hv0]; exact List.mem_cons_self _ _)
        have h1 : b ≠ dquote := fun hcon => by
          rw [hcon] at hbspec
          have ht : isEnvSpecial dquote = true := by decide
          rw [ht] at hbspec
          cases hbspec
        have h2 : b ≠ squote := fun hcon => by
          rw [hcon] at hbspec
          have ht : isEnvSpecial squote = true := by decide
          rw [ht] at hbspec
          cases hbspec
        unfold envQuoteCond
        simp [h1, h2]
    have hins : envInsert ⟨kv.1.data⟩ (.str ⟨envValueStr kv.2⟩) acc
        = acc ++ [kv] := by
      have h1 : (⟨kv.1.data⟩ : String) = kv.1 := rfl
      rw [h1, hveta]
      rw [envInsert_fresh kv.1 kv.2 acc
        (fun kv2 hkv2 => hfresh kv (List.mem_cons_self kv m') kv2 hkv2)]
    have hgood' : ∀ x ∈ m', envKeyGood x.1 ∧ envValCleanB x.2 = true :=
      fun x hx => hgood x (List.mem_cons_of_mem kv hx)
    have hnd' : (m'.map Prod.fst).Nodup := by
      simp only [List.map_cons] at hnd
      exact (List.nodup_cons.mp hnd).2
    have hfresh' : ∀ x ∈ m', ∀ kv2 ∈ acc ++ [kv], kv2.1 ≠ x.1 := by
      intro x hx kv2 hkv2
      rcases List.mem_append.mp hkv2 with h2 | h2
      · exact hfresh x (List.mem_cons_of_mem kv hx) kv2 h2
      · simp only [List.mem_singleton] at h2
        subst h2
        intro hcon
        have hx1 : x.1 ∈ m'.map Prod.fst := List.mem_map_of_mem Prod.fst hx
        rw [← hcon] at hx1
        simp only [List.map_cons] at hnd
        exact (List.nodup_cons.mp hnd).1 hx1
    have hih := ih (acc ++ [kv]) hgood' hnd' hfresh'
    simp only [List.map_cons, parseEnvLines, hline_trim, hcondF, hsplit,
      Bool.false_eq_true, if_false, ite_false, hti, hvtrim, hq, hins]
    rw [hih, List.append_assoc]
    rfl

/-- C4 (counterexample): the round-trip claim fails on the ENV codec.
serializeEnv escapes the value (ReplaceAll of quotes, then the %q
verb, which also escapes backslashes) but parseEnv strips only one
quote layer and never unescapes, so a value containing a backslash
gains a backslash across parse-serialize-parse. -/
theorem env_roundtrip_counterexample :
    ParseConfig rejectingLibs "A=b\\c" ConfigFormat.env = .ok [("A", JValue.str "b\\c")] ∧
    SerializeConfig rejectingLibs [("A", JValue.str "b\\c")] ConfigFormat.env
      = .ok "A=\"b\\\\c\"" ∧
    ParseConfig rejectingLibs "A=\"b\\\\c\"" ConfigFormat.env
      = .ok [("A", JValue.str "b\\\\c")] ∧
    ([("A", JValue.str "b\\\\c")] : Jmap) ≠ [("A", JValue.str "b\\c")] := by
  refine ⟨by rfl, by rfl, by rfl, ?_⟩
  intro h
  have hs := congrArg (fun l : Jmap => match l.head? with
    | some (_, JValue.str s) => s
    | _ => "") h
  exact absurd hs (by decide)

/-- C4 (amended): the round trip parse-serialize-parse is the identity
for the ENV codec on every input whose parsed values are strings free
of white space, quotes, and backslashes (the characters that trigger
the serializer's escaping, which parseEnv does not undo); the other
three codecs delegate to external libraries and are outside the
embedded code. -/
theorem env_roundtrip_on_clean_values (L : LibParsers) (t : String) (m : Jmap)
    (hp : ParseConfig L t ConfigFormat.env = .ok m)
    (hc : ∀ kv ∈ m, envValCleanB kv.2 = true) :
    ∃ s, SerializeConfig L m ConfigFormat.env = .ok s ∧
      ParseConfig L s ConfigFormat.env = .ok m := by
  have hp' : parseEnv t = .ok m := hp
  have hkeys := parseEnvLines_ok_keys (splitOnNl t.data) [] m
    (fun l hl => splitOnNl_mem_no_nl _ l hl) (by simp) (by simp) hp'
  have hser : serializeEnv m
      = .ok ⟨joinNl (m.map (fun kv => kv.1.data ++ '=' :: envValueStr kv.2))⟩ := by
    unfold serializeEnv
    have hmap : m.map serializeEnvLine
        = m.map (fun kv => kv.1.data ++ '=' :: envValueStr kv.2) :=
      List.map_congr_left (fun kv hkv => serializeEnvLine_of_clean kv (hc kv hkv))
    rw [hmap]
  refine ⟨⟨joinNl (m.map (fun kv => kv.1.data ++ '=' :: envValueStr kv.2))⟩, ?_, ?_⟩
  · exact hser
  · by_cases hm : m = []
    · subst hm; rfl
    · have hlines_nonl : ∀ l ∈ m.map (fun kv => kv.1.data ++ '=' :: envValueStr kv.2),
          '\n' ∉ l := by
        intro l hl
        rw [List.mem_map] at hl
        obtain ⟨kv, hkv, hleq⟩ := hl
        subst hleq
        intro hmem
        rcases List.mem_append.mp hmem with hk | hv
        · exact (hkeys.1 kv hkv).2.1 hk
        · rcases List.mem_cons.mp hv with he | hin
          · cases he
          · have := ((envValClean_facts kv.2 (hc kv hkv)).2 '\n' hin).2
            rw [show isGoSpace '\n' = true from by decide] at this
            cases this
      have hsplit : splitOnNl (joinNl (m.map (fun kv => kv.1.data ++ '=' :: envValueStr kv.2)))
          = m.map (fun kv => kv.1.data ++ '=' :: envValueStr kv.2) :=
        splitOnNl_joinNl _ (fun hnil => hm (by simpa using hnil)) hlines_nonl
      show parseEnvLines (splitOnNl
        (joinNl (m.map (fun kv => kv.1.data ++ '=' :: envValueStr kv.2)))) [] = .ok m
      rw [hsplit]
      have hpl := parse_clean_lines m []
        (fun kv hkv => ⟨hkeys.1 kv hkv, hc kv hkv⟩) hkeys.2 (by simp)
      simpa using hpl

/-- Witness: a concrete clean two-entry map round-trips. -/
theorem env_roundtrip_on_clean_values_witness :
    ∃ s, SerializeConfig rejectingLibs [("A", JValue.str "x"), ("B", JValue.str "2")]
          ConfigFormat.env = .ok s ∧
      ParseConfig rejectingLibs s ConfigFormat.env
          = .ok [("A", JValue.str "x"), ("B", JValue.str "2")] :=
  env_roundtrip_on_clean_values rejectingLibs "A=x\nB=2"
    [("A", JValue.str "x"), ("B", JValue.str "2")] (by rfl) (by decide)

/-! ## Helper lemmas about the in-memory repository -/

@[simp] lemma RepoState.log_templates (st : RepoState) (e : RepoEvent) :
    (st.log e).templates = st.templates := rfl

@[simp] lemma RepoState.log_configs (st : RepoState) (e : RepoEvent) :
    (st.log e).configs = st.configs := rfl

@[simp] lemma RepoState.log_versions (st : RepoState) (e : RepoEvent) :
    (st.log e).versions = st.versions := rfl

@[simp] lemma RepoState.log_nextConfigID (st : RepoState) (e : RepoEvent) :
    (st.log e).nextConfigID = st.nextConfigID := rfl

@[simp] lemma RepoState.log_nextVersionID (st : RepoState) (e : RepoEvent) :
    (st.log e).nextVersionID = st.nextVersionID := rfl

lemma find?_imp_any {α : Type} (p : α → Bool) (l : List α) (a : α)
    (h : l.find? p = some a) : l.any p = true := by
  rw [List.any_eq_true]
  exact ⟨a, List.mem_of_find?_eq_some h, List.find?_some h⟩

lemma find?_id_eq (l : List UserConfig) (id : Nat) (cfg : UserConfig)
    (h : l.find? (fun k => k.id == id) = some cfg) : cfg.id = id := by
  have := List.find?_some h
  simpa using this

lemma find?_vid_eq (l : List ConfigVersion) (id : Nat) (v : ConfigVersion)
    (h : l.find? (fun k => k.id == id) = some v) : v.id = id := by
  have := List.find?_some h
  simpa using this

lemma memRepo_getUserConfig_found (st : RepoState) (id : Nat) (cfg : UserConfig)
    (h : st.configs.find? (fun k => k.id == id) = some cfg) :
    memRepo.getUserConfig st id = (st.log (.getUserConfig id), .ok cfg) := by
  show (let st1 := st.log (.getUserConfig id);
        match st1.configs.find? (fun k => k.id == id) with
        | some c => (st1, Except.ok c)
        | none => (st1, Except.error "configuration record not found")) = _
  simp only [RepoState.log_configs, h]

lemma memRepo_getConfigVersion_found (st : RepoState) (id : Nat) (v : ConfigVersion)
    (h : st.versions.find? (fun k => k.id == id) = some v) :
    memRepo.getConfigVersion st id = (st.log (.getConfigVersion id), .ok v) := by
  show (let st1 := st.log (.getConfigVersion id);
        match st1.versions.find? (fun k => k.id == id) with
        | some w => (st1, Except.ok w)
        | none => (st1, Except.error "version record not found")) = _
  simp only [RepoState.log_versions, h]

lemma svcGet_owner (st : RepoState) (id userID : Nat) (cfg : UserConfig)
    (hfind : st.configs.find? (fun k => k.id == id) = some cfg)
    (hown : cfg.userID = userID) :
    ConfigService.GetUserConfig memRepo st id userID
      = (st.log (.getUserConfig id), .ok cfg) := by
  unfold ConfigService.GetUserConfig
  rw [memRepo_getUserConfig_found st id cfg hfind]
  simp [hown]

lemma svcGet_unauthorized (st : RepoState) (id userID : Nat) (cfg : UserConfig)
    (hfind : st.configs.find? (fun k => k.id == id) = some cfg)
    (hown : cfg.userID ≠ userID) :
    ConfigService.GetUserConfig memRepo st id userID
      = (st.log (.getUserConfig id), .error "unauthorized access to configuration") := by
  unfold ConfigService.GetUserConfig
  rw [memRepo_getUserConfig_found st id cfg hfind]
  simp [hown]

/-! ## Update validation (C6) and the missing retry (C7) -/

lemma update_validation_error (L : LibParsers) (st : RepoState)
    (id userID : Nat) (content note : String) (fmt : Option ConfigFormat)
    (cfg : UserConfig) (e : String)
    (hfind : st.configs.find? (fun k => k.id == id) = some cfg)
    (hown : cfg.userID = userID)
    (hparse : ParseConfig L content (fmt.getD cfg.format) = .err e) :
    ConfigService.UpdateUserConfig memRepo L st id userID content note fmt
      = (st.log (.getUserConfig id), .err ("configuration validation failed: " ++ e)) := by
  unfold ConfigService.UpdateUserConfig
  rw [svcGet_owner st id userID cfg hfind hown]
  show (match ConfigService.validateConfigContent L content (fmt.getD cfg.format) with
    | .panicked m => (st.log (.getUserConfig id), GoResult.panicked m)
    | .err e2 => (st.log (.getUserConfig id), .err ("configuration validation failed: " ++ e2))
    | .ok _ => _) = _
  unfold ConfigService.validateConfigContent
  rw [hparse]

/-- C6: updating a document with content that does not parse under the
effective format (the explicit override if given, else the stored
format) returns the wrapped validation error before persisting
anything: the stored documents and the version history are exactly as
before the call. -/
theorem update_rejects_invalid_content (L : LibParsers) (st : RepoState)
    (id userID : Nat) (content note : String) (fmt : Option ConfigFormat)
    (cfg : UserConfig) (e : String)
    (hfind : st.configs.find? (fun k => k.id == id) = some cfg)
    (hown : cfg.userID = userID)
    (hparse : ParseConfig L content (fmt.getD cfg.format) = .err e) :
    ∃ st1, ConfigService.UpdateUserConfig memRepo L st id userID content note fmt
        = (st1, .err ("configuration validation failed: " ++ e))
      ∧ st1.configs = st.configs ∧ st1.versions = st.versions :=
  ⟨st.log (.getUserConfig id),
   update_validation_error L st id userID content note fmt cfg e hfind hown hparse,
   rfl, rfl⟩

/-- A one-document storage state used by the update witness. -/
def c6Cfg : UserConfig :=
  { id := 1, userID := 4, templateID := none, name := "c",
    format := ConfigFormat.env, content := "A=1" }

/-- The storage state holding only c6Cfg. -/
def c6St : RepoState :=
  { templates := [], configs := [c6Cfg], versions := [],
    nextConfigID := 2, nextVersionID := 1, events := [] }

/-- Witness: updating a stored ENV document with content that is not
JSON, under an explicit JSON override, fails with the validation error
and leaves the store unchanged. -/
theorem update_rejects_invalid_content_witness :
    ∃ st1, ConfigService.UpdateUserConfig memRepo rejectingLibs c6St
        1 4 "not-json" "note" (some ConfigFormat.json)
        = (st1, .err ("configuration validation failed: " ++ "invalid character in JSON input"))
      ∧ st1.configs = [c6Cfg] ∧ st1.versions = [] := by
  have h := update_rejects_invalid_content rejectingLibs c6St
    1 4 "not-json" "note" (some ConfigFormat.json)
    c6Cfg "invalid character in JSON input"
    (by rfl) (by rfl) (by rfl)
  exact h

/-- C7 (counterexample): run against a storage collaborator whose
version insert always reports a uniqueness violation (the losing side
of the race the specification discusses) and which counts insert
attempts in its state, createConfigVersion makes exactly one insert
attempt (final counter 1, not 2) and returns the repository error
unchanged — no recompute, no retry, no distinct conflict error. -/
theorem createConfigVersion_counterexample :
    ConfigService.createConfigVersion countingRepo 0
      { id := 5, userID := 3, templateID := none, name := "c",
        format := ConfigFormat.json, content := "x" } "note"
      = (1, .error "unique constraint violation on config version") := by rfl

/-- The number createConfigVersion assigns from the most-recent-first
page it read: one more than the top version, or 1 when none exist. -/
def nextVersionNumber (versions : List ConfigVersion) : Nat :=
  match versions with
  | [] => 1
  | v :: _ => v.version + 1

/-- C7 (amended): createConfigVersion performs a single insert after
one read of the most recent version; when the insert fails, the
repository's error is surfaced to the caller unchanged, with no
retry. -/
theorem createConfigVersion_no_retry {σ : Type} (R : ConfigRepository σ) (s s1 s2 : σ)
    (cfg : UserConfig) (note : String) (vs : List ConfigVersion) (e : String)
    (h1 : R.getConfigVersions s cfg.id 1 1 = (s1, .ok vs))
    (h2 : R.createVersion s1
        { id := 0, configID := cfg.id, version := nextVersionNumber vs,
          content := cfg.content, changeNote := note, createdBy := cfg.userID }
      = (s2, .error e)) :
    ConfigService.createConfigVersion R s cfg note = (s2, .error e) := by
  unfold ConfigService.createConfigVersion
  rw [h1]
  exact h2

/-- Witness: the no-retry shape at a concrete repository and state. -/
theorem createConfigVersion_no_retry_witness :
    ConfigService.createConfigVersion countingRepo 7
      { id := 2, userID := 1, templateID := none, name := "w",
        format := ConfigFormat.env, content := "A=1" } "n"
      = (8, .error "unique constraint violation on config version") :=
  createConfigVersion_no_retry countingRepo 7 7 8
    { id := 2, userID := 1, templateID := none, name := "w",
      format := ConfigFormat.env, content := "A=1" } "n" []
    "unique constraint violation on config version" (by rfl) (by rfl)

/-! ## Characterizations of the remaining repository operations -/

/-- The page createConfigVersion reads: page 1, limit 1 of the
most-recent-first listing. -/
def topVersionPage (st : RepoState) (cid : Nat) : List ConfigVersion :=
  (((sortDescV (st.versions.filter (fun v => v.configID == cid)))).drop 0).take 1

lemma memRepo_getConfigVersions_eq (st : RepoState) (cid page limit : Nat) :
    memRepo.getConfigVersions st cid page limit
      = (st.log (.getConfigVersions cid),
         .ok (((sortDescV (st.versions.filter (fun v => v.configID == cid))).drop
            ((page - 1) * limit)).take limit)) := rfl

lemma memRepo_getTemplate_found (st : RepoState) (id : Nat) (t : ConfigTemplate)
    (h : st.templates.find? (fun x => x.id == id) = some t) :
    memRepo.getTemplate st id = (st.log (.getTemplate id), .ok t) := by
  simp only [memRepo, RepoState.log_templates, h]

lemma memRepo_createUserConfig_ok (st : RepoState) (c : UserConfig)
    (h : st.configs.any (fun k => k.userID == c.userID && k.name == c.name) = false) :
    memRepo.createUserConfig st c
      = ({ st.log (.createUserConfig st.nextConfigID) with
           configs := st.configs ++ [{ c with id := st.nextConfigID }],
           nextConfigID := st.nextConfigID + 1 },
         .ok { c with id := st.nextConfigID }) := by
  simp only [memRepo]
  rw [h]
  simp

lemma memRepo_updateUserConfig_found (st : RepoState) (id : Nat) (c : UserConfig)
    (h : st.configs.any (fun k => k.id == id) = true) :
    memRepo.updateUserConfig st id c
      = ({ st.log (.updateUserConfig id) with
           configs := st.configs.map (fun k => if k.id == id then { c with id := id } else k) },
         .ok ()) := by
  simp only [memRepo]
  rw [h]
  simp

lemma memRepo_createVersion_ok (st : RepoState) (v : ConfigVersion)
    (h : st.versions.any (fun w => w.configID == v.configID && w.version == v.version) = false) :
    memRepo.createVersion st v
      = ({ st.log (.createVersion v.configID v.version) with
           versions := st.versions ++ [{ v with id := st.nextVersionID }],
           nextVersionID := st.nextVersionID + 1 }, .ok ()) := by
  simp only [memRepo]
  rw [h]
  simp

lemma memRepo_createVersion_conflict (st : RepoState) (v : ConfigVersion)
    (h : st.versions.any (fun w => w.configID == v.configID && w.version == v.version) = true) :
    memRepo.createVersion st v
      = (st.log (.createVersion v.configID v.version),
         .error "unique constraint violation on config version") := by
  simp only [memRepo]
  rw [h]
  simp

lemma createCV_memRepo (st : RepoState) (cfg : UserConfig) (note : String) :
    ConfigService.createConfigVersion memRepo st cfg note
      = memRepo.createVersion (st.log (.getConfigVersions cfg.id))
          { id := 0, configID := cfg.id,
            version := nextVersionNumber (topVersionPage st cfg.id),
            content := cfg.content, changeNote := note, createdBy := cfg.userID } := by
  unfold ConfigService.createConfigVersion
  rw [memRepo_getConfigVersions_eq]
  rfl

lemma find?_map_replace (l : List UserConfig) (id : Nat) (cfg c2 : UserConfig)
    (h : l.find? (fun k => k.id == id) = some cfg) (h2 : c2.id = id) :
    (l.map (fun k => if k.id == id then c2 else k)).find? (fun k => k.id == id)
      = some c2 := by
  induction l with
  | nil => simp [List.find?] at h
  | cons a l' ih =>
    by_cases ha : (a.id == id) = true
    · simp only [List.map_cons, ha, if_true, ite_true, List.find?_cons]
      simp [h2]
    · rw [List.find?_cons_of_neg _ (by simpa using ha)] at h
      simp only [List.map_cons, ha, Bool.false_eq_true, if_false, ite_false]
      rw [List.find?_cons_of_neg _ (by simpa using ha)]
      exact ih h

lemma userConfig_set_id_self (c : UserConfig) (id : Nat) (h : c.id = id) :
    { c with id := id } = c := by
  subst h
  rfl

lemma topVersionPage_congr (st2 st : RepoState) (cid : Nat)
    (h : st2.versions = st.versions) : topVersionPage st2 cid = topVersionPage st cid := by
  unfold topVersionPage
  rw [h]

lemma createCV_cases (st2 : RepoState) (cfg2 : UserConfig) (note : String) :
    (ConfigService.createConfigVersion memRepo st2 cfg2 note
        = ((st2.log (.getConfigVersions cfg2.id)).log
            (.createVersion cfg2.id (nextVersionNumber (topVersionPage st2 cfg2.id))),
           .error "unique constraint violation on config version"))
    ∨ ConfigService.createConfigVersion memRepo st2 cfg2 note
        = ({ (st2.log (.getConfigVersions cfg2.id)).log
              (.createVersion cfg2.id (nextVersionNumber (topVersionPage st2 cfg2.id))) with
             versions := st2.versions ++
               [{ id := st2.nextVersionID, configID := cfg2.id,
                  version := nextVersionNumber (topVersionPage st2 cfg2.id),
                  content := cfg2.content, changeNote := note, createdBy := cfg2.userID }],
             nextVersionID := st2.nextVersionID + 1 }, .ok ()) := by
  rw [createCV_memRepo]
  cases hconf : st2.versions.any (fun w => w.configID == cfg2.id
      && w.version == nextVersionNumber (topVersionPage st2 cfg2.id)) with
  | true =>
    left
    rw [memRepo_createVersion_conflict _ _ (by simpa using hconf)]
  | false =>
    right
    rw [memRepo_createVersion_ok _ _ (by simpa using hconf)]
    simp

lemma update_success_shape (L : LibParsers) (st : RepoState) (id userID : Nat)
    (content note : String) (fmt : Option ConfigFormat) (cfg : UserConfig)
    (st' : RepoState) (out : UserConfig)
    (hfind : st.configs.find? (fun k => k.id == id) = some cfg)
    (hown : cfg.userID = userID)
    (hupd : ConfigService.UpdateUserConfig memRepo L st id userID content note fmt
      = (st', .ok out)) :
    out = { cfg with content := content, format := fmt.getD cfg.format }
    ∧ st'.configs = st.configs.map (fun k => if k.id == id then out else k)
    ∧ st'.versions = st.versions ++
        [{ id := st.nextVersionID, configID := cfg.id,
           version := nextVersionNumber (topVersionPage st cfg.id),
           content := content, changeNote := note, createdBy := cfg.userID }] := by
  have hid : cfg.id = id := find?_id_eq _ _ _ hfind
  have hc2id : ({ cfg with content := content, format := fmt.getD cfg.format } : UserConfig).id = id := by
    simp [hid]
  have hset : ({ { cfg with content := content, format := fmt.getD cfg.format } with id := id } : UserConfig) = { cfg with content := content, format := fmt.getD cfg.format } :=
    userConfig_set_id_self _ _ hc2id
  unfold ConfigService.UpdateUserConfig at hupd
  rw [svcGet_owner st id userID cfg hfind hown] at hupd
  cases hv : ConfigService.validateConfigContent L content (fmt.getD cfg.format) with
  | panicked m => simp only [hv] at hupd; simp at hupd
  | err e => simp only [hv] at hupd; simp at hupd
  | ok u =>
    simp only [hv] at hupd
    have hany : (st.log (.getUserConfig id)).configs.any (fun k => k.id == id) = true := by
      simp only [RepoState.log_configs]
      exact find?_imp_any _ _ _ hfind
    simp only [memRepo_updateUserConfig_found _ id _ hany] at hupd
    set C2 : UserConfig := { cfg with content := content, format := fmt.getD cfg.format } with hC2
    set SB : RepoState := { (st.log (RepoEvent.getUserConfig id)).log (RepoEvent.updateUserConfig id) with configs := (st.log (RepoEvent.getUserConfig id)).configs.map (fun k => if k.id == id then { C2 with id := id } else k) } with hSB
    rcases hcv : ConfigService.createConfigVersion memRepo SB C2 note with ⟨st3, r⟩
    rw [hcv] at hupd
    cases r with
    | error e2 => simp at hupd
    | ok u2 =>
      simp only [Prod.mk.injEq, GoResult.ok.injEq] at hupd
      obtain ⟨hst, hout⟩ := hupd
      subst hst
      have hSBversions : SB.versions = st.versions := by simp [hSB]
      have hSBconfigs : SB.configs = st.configs.map (fun k => if k.id == id then { C2 with id := id } else k) := by
        simp [hSB]
      have hSBnext : SB.nextVersionID = st.nextVersionID := by simp [hSB]
      have htop : topVersionPage SB C2.id = topVersionPage st cfg.id := by
        rw [topVersionPage_congr SB st _ hSBversions]
      rcases createCV_cases SB C2 note with hcve | hcvok
      · rw [hcv] at hcve
        simp at hcve
      · rw [hcv] at hcvok
        simp only [Prod.mk.injEq] at hcvok
        obtain ⟨hst3, -⟩ := hcvok
        subst hst3
        refine ⟨hout.symm, ?_, ?_⟩
        · show SB.configs = _
          rw [hSBconfigs, hout.symm, hset]
        · show (SB.versions ++ _ : List ConfigVersion) = _
          rw [hSBversions, hSBnext, htop]
          try simp [hC2]

lemma svcGetVersion_owner (st : RepoState) (vid userID : Nat)
    (v : ConfigVersion) (cfg : UserConfig)
    (hfv : st.versions.find? (fun w => w.id == vid) = some v)
    (hfc : st.configs.find? (fun k => k.id == v.configID) = some cfg)
    (hown : cfg.userID = userID) :
    ConfigService.GetConfigVersion memRepo st vid userID
      = ((st.log (.getConfigVersion vid)).log (.getUserConfig v.configID), .ok v) := by
  unfold ConfigService.GetConfigVersion
  simp only [memRepo_getConfigVersion_found st vid v hfv]
  simp only [svcGet_owner (st.log (.getConfigVersion vid)) v.configID userID cfg
    (by simp only [RepoState.log_configs]; exact hfc) hown]

lemma restore_delegates (L : LibParsers) (st : RepoState)
    (configID versionID userID : Nat) (cfg : UserConfig) (ver : ConfigVersion)
    (hfc : st.configs.find? (fun k => k.id == configID) = some cfg)
    (hown : cfg.userID = userID)
    (hfv : st.versions.find? (fun w => w.id == versionID) = some ver)
    (hvc : ver.configID = configID) :
    ConfigService.RestoreConfigVersion memRepo L st configID versionID userID
      = ConfigService.UpdateUserConfig memRepo L
          (((st.log (.getUserConfig configID)).log (.getConfigVersion versionID)).log
            (.getUserConfig ver.configID))
          configID userID ver.content
          ("Restored to version " ++ toString ver.version) none := by
  unfold ConfigService.RestoreConfigVersion
  simp only [svcGet_owner st configID userID cfg hfc hown]
  simp only [svcGetVersion_owner (st.log (.getUserConfig configID)) versionID userID ver cfg
    (by simp only [RepoState.log_versions]; exact hfv)
    (by simp only [RepoState.log_configs]; rw [hvc]; exact hfc) hown]
  simp [hvc]

/-- C10: RestoreConfigVersion delegates to UpdateUserConfig with no
format override, so the historical content is validated against the
document's current stored format; on a validation failure the store
is unchanged, and on success the restored document keeps the current
format, carries the historical content, and one new version row is
appended rather than history being rewritten. -/
theorem restore_keeps_current_format (L : LibParsers) (st : RepoState)
    (configID versionID userID : Nat) (cfg : UserConfig) (ver : ConfigVersion)
    (hfc : st.configs.find? (fun k => k.id == configID) = some cfg)
    (hown : cfg.userID = userID)
    (hfv : st.versions.find? (fun w => w.id == versionID) = some ver)
    (hvc : ver.configID = configID) :
    (∀ e, ParseConfig L ver.content cfg.format = .err e →
       ∃ st1, ConfigService.RestoreConfigVersion memRepo L st configID versionID userID
           = (st1, .err ("configuration validation failed: " ++ e))
         ∧ st1.configs = st.configs ∧ st1.versions = st.versions)
    ∧ (∀ st2 out, ConfigService.RestoreConfigVersion memRepo L st configID versionID userID
           = (st2, .ok out) →
         out.format = cfg.format ∧ out.content = ver.content
         ∧ st2.configs.find? (fun k => k.id == configID) = some out
         ∧ ∃ v2, st2.versions = st.versions ++ [v2]) := by
  have hdel := restore_delegates L st configID versionID userID cfg ver hfc hown hfv hvc
  constructor
  · intro e hparse
    rw [hdel]
    refine ⟨_, update_validation_error L _ configID userID ver.content _ none cfg e
      (by simp only [RepoState.log_configs]; exact hfc) hown (by simpa using hparse), rfl, rfl⟩
  · intro st2 out hok
    rw [hdel] at hok
    have hshape := update_success_shape L _ configID userID ver.content _ none cfg st2 out
      (by simp only [RepoState.log_configs]; exact hfc) hown hok
    obtain ⟨hout, hconfigs, hversions⟩ := hshape
    have houtid : out.id = configID := by
      rw [hout]
      simp [find?_id_eq _ _ _ hfc]
    refine ⟨?_, ?_, ?_, ?_⟩
    · rw [hout]; simp
    · rw [hout]
    · rw [hconfigs]
      exact find?_map_replace st.configs configID cfg out
        (by simpa using hfc) houtid
    · exact ⟨_, by simpa using hversions⟩

/-- Witness state pieces for the restore theorem: a JSON document
whose historical version holds ENV content. -/
def c10Cfg : UserConfig :=
  { id := 1, userID := 9, templateID := none, name := "d",
    format := ConfigFormat.json, content := "x" }

/-- The historical version row of the restore witness. -/
def c10Ver : ConfigVersion :=
  { id := 3, configID := 1, version := 1, content := "A=1",
    changeNote := "Initial version", createdBy := 9 }

/-- The storage state of the restore witness. -/
def c10St : RepoState :=
  { templates := [], configs := [c10Cfg], versions := [c10Ver],
    nextConfigID := 2, nextVersionID := 4, events := [] }

/-- Witness: restoring the ENV-era version of a document whose format
is now JSON fails validation against the current format and leaves the
store unchanged. -/
theorem restore_keeps_current_format_witness :
    ∃ st1, ConfigService.RestoreConfigVersion memRepo rejectingLibs c10St 1 3 9
        = (st1, .err ("configuration validation failed: " ++ "invalid character in JSON input"))
      ∧ st1.configs = [c10Cfg] ∧ st1.versions = [c10Ver] := by
  have h := (restore_keeps_current_format rejectingLibs c10St 1 3 9 c10Cfg c10Ver
    (by rfl) (by rfl) (by rfl) (by rfl)).1 "invalid character in JSON input" (by rfl)
  obtain ⟨st1, h1, h2, h3⟩ := h
  exact ⟨st1, h1, by rw [h2]; rfl, by rw [h3]; rfl⟩

/-! ## Ownership enforcement (C8) -/

lemma append_ne_of_head (p e q : String) (c d : Char)
    (hp : p.data.head? = some c) (hq : q.data.head? = some d) (hc : c ≠ d) :
    p ++ e ≠ q := by
  intro h
  have hd0 : p.data ++ e.data = q.data := congrArg String.data h
  cases hpd : p.data with
  | nil => rw [hpd] at hp; cases hp
  | cons x xs =>
    rw [hpd] at hp hd0
    simp only [List.head?_cons, Option.some.injEq] at hp
    have hx : (q.data).head? = some x := by
      rw [← hd0]
      simp
    rw [hq] at hx
    simp only [Option.some.injEq] at hx
    exact hc (by rw [← hp, hx])

lemma update_owner_not_unauthorized (L : LibParsers) (st : RepoState)
    (id userID : Nat) (content note : String) (fmt : Option ConfigFormat)
    (cfg : UserConfig) (st' : RepoState) (r : GoResult UserConfig)
    (hfind : st.configs.find? (fun k => k.id == id) = some cfg)
    (hown : cfg.userID = userID)
    (hupd : ConfigService.UpdateUserConfig memRepo L st id userID content note fmt
      = (st', r)) :
    r ≠ GoResult.err "unauthorized access to configuration" := by
  intro hbad
  subst hbad
  unfold ConfigService.UpdateUserConfig at hupd
  rw [svcGet_owner st id userID cfg hfind hown] at hupd
  cases hv : ConfigService.validateConfigContent L content (fmt.getD cfg.format) with
  | panicked m => simp only [hv] at hupd; simp at hupd
  | err e =>
    simp only [hv] at hupd
    simp only [Prod.mk.injEq, GoResult.err.injEq] at hupd
    exact append_ne_of_head "configuration validation failed: " e
      "unauthorized access to configuration" 'c' 'u' rfl rfl (by decide) hupd.2
  | ok u =>
    simp only [hv] at hupd
    have hany : (st.log (.getUserConfig id)).configs.any (fun k => k.id == id) = true := by
      simp only [RepoState.log_configs]
      exact find?_imp_any _ _ _ hfind
    simp only [memRepo_updateUserConfig_found _ id _ hany] at hupd
    set C2 : UserConfig := { cfg with content := content, format := fmt.getD cfg.format } with hC2
    set SB : RepoState := { (st.log (RepoEvent.getUserConfig id)).log (RepoEvent.updateUserConfig id) with configs := (st.log (RepoEvent.getUserConfig id)).configs.map (fun k => if k.id == id then { C2 with id := id } else k) } with hSB
    rcases hcv : ConfigService.createConfigVersion memRepo SB C2 note with ⟨st3, rr⟩
    rw [hcv] at hupd
    cases rr with
    | error e2 =>
      simp only [Prod.mk.injEq, GoResult.err.injEq] at hupd
      exact append_ne_of_head "failed to create version: " e2
        "unauthorized access to configuration" 'f' 'u' rfl rfl (by decide) hupd.2
    | ok u2 => simp at hupd

lemma memRepo_deleteUserConfig_found (st : RepoState) (id : Nat)
    (h : st.configs.any (fun k => k.id == id) = true) :
    memRepo.deleteUserConfig st id
      = ({ st.log (.deleteUserConfig id) with
           configs := st.configs.filter (fun k => k.id != id),
           versions := st.versions.filter (fun v => v.configID != id) }, .ok ()) := by
  simp only [memRepo]
  rw [h]
  simp

/-- A one-document, one-version storage state owned by user 1, used
for the ownership statements. -/
def c8Cfg : UserConfig :=
  { id := 1, userID := 1, templateID := none, name := "s",
    format := ConfigFormat.env, content := "A=1" }

/-- The initial version row of that document. -/
def c8Ver : ConfigVersion :=
  { id := 1, configID := 1, version := 1, content := "A=1",
    changeNote := "Initial version", createdBy := 1 }

/-- The storage state holding c8Cfg and c8Ver. -/
def c8St : RepoState :=
  { templates := [], configs := [c8Cfg], versions := [c8Ver],
    nextConfigID := 2, nextVersionID := 2, events := [] }

/-- C8 (counterexample): when a non-owner asks for a version,
GetConfigVersion does reject the call with the ownership error, but
the recorded repository calls show the version row was read first and
the owning document second — the version read happens before the
ownership check, not after it. -/
theorem getConfigVersion_reads_version_before_ownership :
    ConfigService.GetConfigVersion memRepo c8St 1 2
      = ((c8St.log (.getConfigVersion 1)).log (.getUserConfig 1),
         .error "unauthorized access to configuration")
    ∧ ((c8St.log (.getConfigVersion 1)).log (.getUserConfig 1)).events
      = [RepoEvent.getConfigVersion 1, RepoEvent.getUserConfig 1] :=
  ⟨rfl, rfl⟩

/-- C8 (amended): every service operation on a document owned by
caller a rejects a different caller b with the ownership error and
leaves the stored documents and versions unchanged, while the same
call by a never fails the ownership check; version access is
authorized through the parent document. (The rejection is not always
before every read: GetConfigVersion reads the version row first.) -/
theorem ownership_enforced (st : RepoState) (docID a b : Nat) (cfg : UserConfig)
    (hfind : st.configs.find? (fun k => k.id == docID) = some cfg)
    (hown : cfg.userID = a) (hne : b ≠ a) :
    (ConfigService.GetUserConfig memRepo st docID b
        = (st.log (.getUserConfig docID), .error "unauthorized access to configuration"))
    ∧ (ConfigService.GetUserConfig memRepo st docID a
        = (st.log (.getUserConfig docID), .ok cfg))
    ∧ (∀ L content note fmt, ∃ st1,
        ConfigService.UpdateUserConfig memRepo L st docID b content note fmt
          = (st1, .err "unauthorized access to configuration")
        ∧ st1.configs = st.configs ∧ st1.versions = st.versions)
    ∧ (∀ L content note fmt st1 r,
        ConfigService.UpdateUserConfig memRepo L st docID a content note fmt = (st1, r) →
        r ≠ .err "unauthorized access to configuration")
    ∧ (∃ st1, ConfigService.DeleteUserConfig memRepo st docID b
        = (st1, .error "unauthorized access to configuration")
        ∧ st1.configs = st.configs ∧ st1.versions = st.versions)
    ∧ (∃ st1, ConfigService.DeleteUserConfig memRepo st docID a = (st1, .ok ()))
    ∧ (∀ page limit, ∃ st1,
        ConfigService.GetConfigVersions memRepo st docID b page limit
          = (st1, .error "unauthorized access to configuration")
        ∧ st1.configs = st.configs ∧ st1.versions = st.versions)
    ∧ (∀ page limit, ∃ st1 vs,
        ConfigService.GetConfigVersions memRepo st docID a page limit = (st1, .ok vs))
    ∧ (∀ vid ver, st.versions.find? (fun w => w.id == vid) = some ver →
        ver.configID = docID →
        (∃ st1, ConfigService.GetConfigVersion memRepo st vid b
            = (st1, .error "unauthorized access to configuration")
          ∧ st1.configs = st.configs ∧ st1.versions = st.versions)
        ∧ ConfigService.GetConfigVersion memRepo st vid a
            = ((st.log (.getConfigVersion vid)).log (.getUserConfig ver.configID), .ok ver))
    ∧ (∀ L vid, ∃ st1,
        ConfigService.RestoreConfigVersion memRepo L st docID vid b
          = (st1, .err "unauthorized access to configuration")
        ∧ st1.configs = st.configs ∧ st1.versions = st.versions)
    ∧ (∀ L vid ver st1 r, st.versions.find? (fun w => w.id == vid) = some ver →
        ver.configID = docID →
        ConfigService.RestoreConfigVersion memRepo L st docID vid a = (st1, r) →
        r ≠ .err "unauthorized access to configuration")
    ∧ (∀ L fmt, ∃ st1,
        ConfigService.ExportConfig memRepo L st docID b fmt
          = (st1, .err "unauthorized access to configuration")
        ∧ st1.configs = st.configs ∧ st1.versions = st.versions)
    ∧ (∀ L, ConfigService.ExportConfig memRepo L st docID a cfg.format
        = (st.log (.getUserConfig docID), .ok cfg.content)) := by
  have hB : cfg.userID ≠ b := by rw [hown]; exact fun h => hne h.symm
  have hgb := svcGet_unauthorized st docID b cfg hfind hB
  have hga := svcGet_owner st docID a cfg hfind hown
  have hid : cfg.id = docID := find?_id_eq _ _ _ hfind
  refine ⟨hgb, hga, ?_, ?_, ?_, ?_, ?_, ?_, ?_, ?_, ?_, ?_, ?_⟩
  · intro L content note fmt
    refine ⟨st.log (.getUserConfig docID), ?_, rfl, rfl⟩
    unfold ConfigService.UpdateUserConfig
    rw [hgb]
  · intro L content note fmt st1 r hupd
    exact update_owner_not_unauthorized L st docID a content note fmt cfg st1 r hfind hown hupd
  · refine ⟨st.log (.getUserConfig docID), ?_, rfl, rfl⟩
    unfold ConfigService.DeleteUserConfig
    rw [hgb]
  · have hany : (st.log (.getUserConfig docID)).configs.any (fun k => k.id == cfg.id) = true := by
      simp only [RepoState.log_configs, hid]
      exact find?_imp_any _ _ _ hfind
    have hd := memRepo_deleteUserConfig_found (st.log (.getUserConfig docID)) cfg.id hany
    exact ⟨_, by unfold ConfigService.DeleteUserConfig; rw [hga]; exact hd⟩
  · intro page limit
    refine ⟨st.log (.getUserConfig docID), ?_, rfl, rfl⟩
    unfold ConfigService.GetConfigVersions
    rw [hgb]
  · intro page limit
    have hgv := memRepo_getConfigVersions_eq (st.log (.getUserConfig docID)) docID page limit
    exact ⟨_, _, by unfold ConfigService.GetConfigVersions; rw [hga]; exact hgv⟩
  · intro vid ver hfv hvc
    have hgb2 := svcGet_unauthorized (st.log (.getConfigVersion vid)) ver.configID b cfg
      (by simp only [RepoState.log_configs]; rw [hvc]; exact hfind) hB
    constructor
    · refine ⟨(st.log (.getConfigVersion vid)).log (.getUserConfig ver.configID), ?_, rfl, rfl⟩
      unfold ConfigService.GetConfigVersion
      simp only [memRepo_getConfigVersion_found st vid ver hfv]
      simp only [hgb2]
    · exact svcGetVersion_owner st vid a ver cfg hfv (by rw [hvc]; exact hfind) hown
  · intro L vid
    refine ⟨st.log (.getUserConfig docID), ?_, rfl, rfl⟩
    unfold ConfigService.RestoreConfigVersion
    rw [hgb]
  · intro L vid ver st1 r hfv hvc hres hbad
    rw [restore_delegates L st docID vid a cfg ver hfind hown hfv hvc] at hres
    exact update_owner_not_unauthorized L _ docID a ver.content _ none cfg st1 r
      (by simp only [RepoState.log_configs]; exact hfind) hown hres hbad
  · intro L fmt
    refine ⟨st.log (.getUserConfig docID), ?_, rfl, rfl⟩
    unfold ConfigService.ExportConfig
    rw [hgb]
  · intro L
    unfold ConfigService.ExportConfig
    rw [hga]
    simp

/-- Witness: at the one-document state, user 2 is rejected with the
ownership error while owner 1 gets the document back. -/
theorem ownership_enforced_witness :
    ConfigService.GetUserConfig memRepo c8St 1 2
      = (c8St.log (.getUserConfig 1), .error "unauthorized access to configuration")
    ∧ ConfigService.GetUserConfig memRepo c8St 1 1
      = (c8St.log (.getUserConfig 1), .ok c8Cfg) := by
  have h := ownership_enforced c8St 1 1 2 c8Cfg (by rfl) (by rfl) (by decide)
  exact ⟨h.1, h.2.1⟩

/-! ## Version numbering (C1) -/

/-- The version number at the head of a list (0 when empty). -/
def headVN : List ConfigVersion → Nat
  | [] => 0
  | v :: _ => v.version

lemma insDescV_ne_nil (v : ConfigVersion) (l : List ConfigVersion) :
    insDescV v l ≠ [] := by
  cases l with
  | nil => simp [insDescV]
  | cons w ws =>
    unfold insDescV
    split <;> simp

lemma headVN_insDescV (v : ConfigVersion) (l : List ConfigVersion) :
    headVN (insDescV v l) = max v.version (headVN l) := by
  cases l with
  | nil => simp [insDescV, headVN]
  | cons w ws =>
    unfold insDescV
    split <;> simp [headVN] <;> omega

lemma headVN_sortDescV (l : List ConfigVersion) :
    headVN (sortDescV l) = List.foldr (fun v m => max v.version m) 0 l := by
  induction l with
  | nil => rfl
  | cons a l ih =>
    show headVN (insDescV a (sortDescV l)) = _
    rw [headVN_insDescV, ih]
    rfl

lemma sortDescV_eq_nil (l : List ConfigVersion) (h : sortDescV l = []) : l = [] := by
  cases l with
  | nil => rfl
  | cons a l => exact absurd h (insDescV_ne_nil a (sortDescV l))

lemma foldr_maxV_eq (l : List ConfigVersion) :
    List.foldr (fun v m => max v.version m) 0 l
      = List.foldr max 0 (l.map (fun v => v.version)) := by
  induction l with
  | nil => rfl
  | cons a l ih => simp [ih]

lemma foldr_max_range (s n : Nat) :
    List.foldr max 0 (List.range' s n) = if n = 0 then 0 else s + n - 1 := by
  induction n generalizing s with
  | zero => rfl
  | succ n ih =>
    rw [List.range'_succ]
    simp only [List.foldr_cons]
    rw [ih (s + 1)]
    by_cases h : n = 0
    · subst h; simp
    · rw [if_neg h, if_neg (Nat.succ_ne_zero n)]
      omega

lemma nextVN_of_range (st : RepoState) (cid n : Nat)
    (h : versionNums st cid = List.range' 1 n) :
    nextVersionNumber (topVersionPage st cid) = n + 1 := by
  unfold topVersionPage
  cases hsd : sortDescV (st.versions.filter (fun v => v.configID == cid)) with
  | nil =>
    have hfl := sortDescV_eq_nil _ hsd
    have hvn : versionNums st cid = [] := by unfold versionNums; rw [hfl]; rfl
    rw [hvn] at h
    have hn : n = 0 := List.range'_eq_nil.mp h.symm
    subst hn
    rfl
  | cons h0 t =>
    have hn0 : n ≠ 0 := by
      intro hn
      subst hn
      have hfl : st.versions.filter (fun v => v.configID == cid) = [] := by
        have h2 : (st.versions.filter (fun v => v.configID == cid)).map (fun v => v.version) = [] := h
        exact List.map_eq_nil_iff.mp h2
      rw [hfl] at hsd
      cases hsd
    have hhv : h0.version = n := by
      have h1 : headVN (sortDescV (st.versions.filter (fun v => v.configID == cid))) = h0.version := by
        rw [hsd]; rfl
      rw [headVN_sortDescV, foldr_maxV_eq] at h1
      have h2 : (st.versions.filter (fun v => v.configID == cid)).map (fun v => v.version) = List.range' 1 n := h
      rw [h2, foldr_max_range, if_neg hn0] at h1
      omega
    simp [nextVersionNumber, hhv]

lemma fresh_config_versions (st : RepoState) (hwf : RepoWF st) :
    st.versions.filter (fun v => v.configID == st.nextConfigID) = [] := by
  rw [List.filter_eq_nil_iff]
  intro v hv
  obtain ⟨c, hc, hvc⟩ := hwf.versions_owned v hv
  have hlt := hwf.configs_lt c hc
  simp only [beq_iff_eq]
  omega

lemma versionNums_append (st1 st : RepoState) (v : ConfigVersion) (cid : Nat)
    (h : st1.versions = st.versions ++ [v]) :
    versionNums st1 cid
      = versionNums st cid ++ (if v.configID == cid then [v.version] else []) := by
  unfold versionNums
  rw [h, List.filter_append, List.map_append]
  cases hc : (v.configID == cid) <;> simp [List.filter_cons, hc]

lemma range_one_concat (n : Nat) :
    List.range' 1 (n + 1) = List.range' 1 n ++ [n + 1] := by
  rw [List.range'_concat]
  simp [Nat.add_comm]

lemma create_success_shape (st : RepoState) (hwf : RepoWF st)
    (userID templateID : Nat) (name : String) (tmpl : ConfigTemplate)
    (hft : st.templates.find? (fun t => t.id == templateID) = some tmpl)
    (hdup : st.configs.any (fun k => k.userID == userID && k.name == name) = false) :
    ∃ st1 out,
      ConfigService.CreateUserConfig memRepo st userID templateID name = (st1, .ok out)
      ∧ out = { id := st.nextConfigID, userID := userID, templateID := some templateID,
                name := name, format := tmpl.format, content := tmpl.defaultContent }
      ∧ st1.versions = st.versions ++
          [{ id := st.nextVersionID, configID := st.nextConfigID, version := 1,
             content := tmpl.defaultContent, changeNote := "Initial version",
             createdBy := userID }] := by
  have h1 := memRepo_getTemplate_found st templateID tmpl hft
  set S1 : RepoState := st.log (.getTemplate templateID) with hS1
  set uc : UserConfig := { id := 0, userID := userID, templateID := some templateID, name := name, format := tmpl.format, content := tmpl.defaultContent } with huc
  have hdup1 : S1.configs.any (fun k => k.userID == uc.userID && k.name == uc.name) = false := hdup
  have h2 := memRepo_createUserConfig_ok S1 uc hdup1
  set stored : UserConfig := { uc with id := S1.nextConfigID } with hstored
  set SA : RepoState := { S1.log (.createUserConfig S1.nextConfigID) with configs := S1.configs ++ [stored], nextConfigID := S1.nextConfigID + 1 } with hSA
  have hSAver : SA.versions = st.versions := by simp [hSA, hS1]
  have hstid : stored.id = st.nextConfigID := rfl
  have htop : topVersionPage SA stored.id = [] := by
    unfold topVersionPage
    rw [hSAver, hstid, fresh_config_versions st hwf]
    rfl
  have hcv := createCV_memRepo SA stored "Initial version"
  set V : ConfigVersion := { id := 0, configID := stored.id, version := nextVersionNumber (topVersionPage SA stored.id), content := stored.content, changeNote := "Initial version", createdBy := stored.userID } with hV
  have hno : ((SA.log (.getConfigVersions stored.id)).versions).any
      (fun w => w.configID == V.configID && w.version == V.version) = false := by
    rw [List.any_eq_false]
    intro w hw
    rw [RepoState.log_versions, hSAver] at hw
    obtain ⟨c, hc, hvc⟩ := hwf.versions_owned w hw
    have hlt := hwf.configs_lt c hc
    simp only [hV, Bool.and_eq_true, beq_iff_eq, not_and, hstid]
    intro hwc
    have hS1n : S1.nextConfigID = st.nextConfigID := rfl
    omega
  rw [memRepo_createVersion_ok (SA.log (.getConfigVersions stored.id)) V hno] at hcv
  refine ⟨(ConfigService.createConfigVersion memRepo SA stored "Initial version").1,
    stored, ?_, rfl, ?_⟩
  · unfold ConfigService.CreateUserConfig
    simp only [h1, ← huc]
    simp only [h2]
    simp only [hcv]
  · rw [hcv]
    simp only [RepoState.log_versions, RepoState.log_nextVersionID, hSAver, hV, htop]
    rfl

/-- C1: version numbers per document are exactly 1..n in storage
order and are assigned by the service, never supplied by the caller:
creating a document from a template appends exactly one version
record numbered 1 with change note "Initial version", and every
successful update (restores delegate to update) appends exactly one
record numbered one above the current maximum for that document,
leaving every other document's history untouched. -/
theorem version_numbering (st : RepoState) (hwf : RepoWF st) :
    (∀ userID templateID name tmpl,
       st.templates.find? (fun t => t.id == templateID) = some tmpl →
       st.configs.any (fun k => k.userID == userID && k.name == name) = false →
       ∃ st1 out,
         ConfigService.CreateUserConfig memRepo st userID templateID name = (st1, .ok out)
         ∧ st1.versions = st.versions ++
             [{ id := st.nextVersionID, configID := st.nextConfigID, version := 1,
                content := tmpl.defaultContent, changeNote := "Initial version",
                createdBy := userID }]
         ∧ versionNums st1 out.id = List.range' 1 1
         ∧ ∀ cid, cid ≠ out.id → versionNums st1 cid = versionNums st cid)
    ∧ (∀ L id userID content note fmt cfg st1 out,
       st.configs.find? (fun k => k.id == id) = some cfg →
       cfg.userID = userID →
       ConfigService.UpdateUserConfig memRepo L st id userID content note fmt = (st1, .ok out) →
       ∃ n, versionNums st cfg.id = List.range' 1 n
         ∧ st1.versions = st.versions ++
             [{ id := st.nextVersionID, configID := cfg.id, version := n + 1,
                content := content, changeNote := note, createdBy := cfg.userID }]
         ∧ versionNums st1 cfg.id = List.range' 1 (n + 1)
         ∧ ∀ cid, cid ≠ cfg.id → versionNums st1 cid = versionNums st cid) := by
  constructor
  · intro userID templateID name tmpl hft hdup
    obtain ⟨st1, out, hcr, hout, hver⟩ :=
      create_success_shape st hwf userID templateID name tmpl hft hdup
    have houtid : out.id = st.nextConfigID := by rw [hout]
    have h0 : versionNums st st.nextConfigID = [] := by
      unfold versionNums
      rw [fresh_config_versions st hwf]
      rfl
    refine ⟨st1, out, hcr, hver, ?_, ?_⟩
    · rw [versionNums_append st1 st _ out.id hver, houtid, h0]
      simp
    · intro cid hcid
      rw [houtid] at hcid
      have hne2 : st.nextConfigID ≠ cid := fun h => hcid h.symm
      rw [versionNums_append st1 st _ cid hver]
      simp [hne2]
  · intro L id userID content note fmt cfg st1 out hfind hown hupd
    obtain ⟨n, hvn⟩ := hwf.version_nums cfg.id
    obtain ⟨hout, hconfigs, hversions⟩ :=
      update_success_shape L st id userID content note fmt cfg st1 out hfind hown hupd
    have hnext := nextVN_of_range st cfg.id n hvn
    rw [hnext] at hversions
    refine ⟨n, hvn, hversions, ?_, ?_⟩
    · rw [versionNums_append st1 st _ cfg.id hversions, hvn]
      simp [range_one_concat]
    · intro cid hcid
      have hne2 : cfg.id ≠ cid := fun h => hcid h.symm
      rw [versionNums_append st1 st _ cid hversions]
      simp [hne2]

/-- The one-template storage state used by the numbering witness. -/
def c1Tpl : ConfigTemplate :=
  { id := 1, name := "t", format := ConfigFormat.env, defaultContent := "A=1" }

/-- The empty store holding only c1Tpl. -/
def c1St : RepoState :=
  { templates := [c1Tpl], configs := [], versions := [],
    nextConfigID := 1, nextVersionID := 1, events := [] }

/-- Witness: creating a document from the template in the empty store
gives that document the version list [1]. -/
theorem version_numbering_witness :
    ∃ st1 out, ConfigService.CreateUserConfig memRepo c1St 5 1 "mine" = (st1, .ok out)
      ∧ versionNums st1 out.id = List.range' 1 1 := by
  have h := (version_numbering c1St
    ⟨fun c hc => by simp [c1St] at hc,
     fun v hv => by simp [c1St] at hv,
     fun cid => ⟨0, rfl⟩⟩).1 5 1 "mine" c1Tpl (by rfl) (by rfl)
  obtain ⟨st1, out, h1, h2, h3, h4⟩ := h
  exact ⟨st1, out, h1, h3⟩
